import Mathlib

/-!
# Verification of the e-commerce transactional core

Shallow embedding of the order-fulfillment, inventory and review-rating
workflows of the repository (`src/unnamed/part_000` = `OrderService` +
`BaseService`, `src/services/ReviewService.ts` = `ReviewService` +
`ProductService`, `src/models/Order.ts`, `src/models/Product.ts`,
`src/unnamed/part_026` = the `Review` schema).

Modelling conventions:
* JavaScript numbers that hold money/ratings are modelled as `ℚ` (exact
  arithmetic; the spec's "within floating-point tolerance" is subsumed by
  exactness), stock counts as `ℤ` (Mongo `$inc` arithmetic is unchecked and
  can go negative), document counts as `ℕ`.
* Each Mongo collection is an association list `List (ℕ × α)` keyed by
  document id; `lookupA` returns the first binding, `modifyA` rewrites a
  binding in place (mongoose `findByIdAndUpdate`), `insertA` appends
  (mongoose `create`), `removeA` deletes (mongoose `findByIdAndDelete`).
* A service call that runs inside a transaction and throws is modelled as
  returning `Except` with the *original* state: `session.abortTransaction()`
  means no partial write is ever committed.
* Timestamps (`Date.now()`-style) are passed in as an explicit `now : ℕ`.
-/

namespace ECommerce

/-! ## Association-list stores -/

/-- First binding for key `k` (mongoose `findById`). -/
def lookupA {α : Type} : List (ℕ × α) → ℕ → Option α
  | [], _ => none
  | (k', v) :: rest, k => if k' = k then some v else lookupA rest k

/-- Rewrite the binding(s) for key `k` in place (mongoose `findByIdAndUpdate`). -/
def modifyA {α : Type} (m : List (ℕ × α)) (k : ℕ) (f : α → α) : List (ℕ × α) :=
  m.map (fun kv => if kv.1 = k then (kv.1, f kv.2) else kv)

/-- Append a fresh document (mongoose `create`). -/
def insertA {α : Type} (m : List (ℕ × α)) (k : ℕ) (v : α) : List (ℕ × α) :=
  m ++ [(k, v)]

/-- Delete the document with key `k` (mongoose `findByIdAndDelete`). -/
def removeA {α : Type} (m : List (ℕ × α)) (k : ℕ) : List (ℕ × α) :=
  m.filter (fun kv => kv.1 ≠ k)

theorem lookupA_cons {α : Type} (k₀ k : ℕ) (v₀ : α) (rest : List (ℕ × α)) :
    lookupA ((k₀, v₀) :: rest) k = if k₀ = k then some v₀ else lookupA rest k := rfl

theorem modifyA_cons_pos {α : Type} {k₀ k : ℕ} (v₀ : α) (rest : List (ℕ × α))
    (f : α → α) (h : k₀ = k) :
    modifyA ((k₀, v₀) :: rest) k f = (k₀, f v₀) :: modifyA rest k f := by
  simp [modifyA, h]

theorem modifyA_cons_neg {α : Type} {k₀ k : ℕ} (v₀ : α) (rest : List (ℕ × α))
    (f : α → α) (h : ¬ k₀ = k) :
    modifyA ((k₀, v₀) :: rest) k f = (k₀, v₀) :: modifyA rest k f := by
  simp [modifyA, h]

theorem removeA_cons_pos {α : Type} {k₀ k : ℕ} (v₀ : α) (rest : List (ℕ × α))
    (h : k₀ = k) : removeA ((k₀, v₀) :: rest) k = removeA rest k := by
  simp [removeA, h]

theorem removeA_cons_neg {α : Type} {k₀ k : ℕ} (v₀ : α) (rest : List (ℕ × α))
    (h : ¬ k₀ = k) : removeA ((k₀, v₀) :: rest) k = (k₀, v₀) :: removeA rest k := by
  simp [removeA, h]

theorem lookupA_modifyA {α : Type} (m : List (ℕ × α)) (k k' : ℕ) (f : α → α) :
    lookupA (modifyA m k f) k' =
      if k' = k then (lookupA m k).map f else lookupA m k' := by
  induction m with
  | nil => simp [lookupA, modifyA]
  | cons kv rest ih =>
    obtain ⟨k₀, v₀⟩ := kv
    by_cases h₀ : k₀ = k <;> by_cases h₁ : k₀ = k'
    · subst h₀; subst h₁
      simp [modifyA_cons_pos v₀ rest f rfl, lookupA_cons]
    · subst h₀
      have h₂ : ¬ k' = k₀ := fun h => h₁ h.symm
      simp [modifyA_cons_pos v₀ rest f rfl, lookupA_cons, h₁, h₂, ih]
    · subst h₁
      have h₂ : ¬ k₀ = k := h₀
      simp [modifyA_cons_neg v₀ rest f h₀, lookupA_cons, h₂]
    · have h₂ : ¬ k' = k₀ := fun h => h₁ h.symm
      simp [modifyA_cons_neg v₀ rest f h₀, lookupA_cons, h₀, h₁, ih]

theorem lookupA_removeA {α : Type} (m : List (ℕ × α)) (k k' : ℕ) :
    lookupA (removeA m k) k' =
      if k' = k then none else lookupA m k' := by
  induction m with
  | nil => simp [lookupA, removeA]
  | cons kv rest ih =>
    obtain ⟨k₀, v₀⟩ := kv
    by_cases h₀ : k₀ = k <;> by_cases h₁ : k₀ = k'
    · subst h₀; subst h₁
      simp [removeA_cons_pos v₀ rest rfl, lookupA_cons, ih]
    · subst h₀
      have h₂ : ¬ k' = k₀ := fun h => h₁ h.symm
      simp [removeA_cons_pos v₀ rest rfl, lookupA_cons, h₁, h₂, ih]
    · subst h₁
      have h₂ : ¬ k₀ = k := h₀
      simp [removeA_cons_neg v₀ rest h₀, lookupA_cons, h₂]
    · simp [removeA_cons_neg v₀ rest h₀, lookupA_cons, h₁, ih]

theorem lookupA_insertA_fresh {α : Type} (m : List (ℕ × α)) (k k' : ℕ) (v : α)
    (hfresh : lookupA m k = none) :
    lookupA (insertA m k v) k' = if k' = k then some v else lookupA m k' := by
  induction m with
  | nil =>
    by_cases h : k = k'
    · subst h; simp [lookupA, insertA]
    · have h₂ : ¬ k' = k := fun h' => h h'.symm
      simp [lookupA, insertA, h, h₂, lookupA_cons]
  | cons kv rest ih =>
    obtain ⟨k₀, v₀⟩ := kv
    have hk₀ : ¬ k₀ = k := by
      intro h
      rw [lookupA_cons, if_pos h] at hfresh
      exact Option.noConfusion hfresh
    have hrest : lookupA rest k = none := by
      rwa [lookupA_cons, if_neg hk₀] at hfresh
    have hstep : insertA ((k₀, v₀) :: rest) k v = (k₀, v₀) :: insertA rest k v := rfl
    by_cases h₁ : k₀ = k'
    · subst h₁
      have h₂ : ¬ k₀ = k := hk₀
      simp [hstep, lookupA_cons, h₂]
    · simp [hstep, lookupA_cons, h₁, ih hrest]

theorem lookupA_mem {α : Type} (m : List (ℕ × α)) (k : ℕ) (v : α)
    (h : lookupA m k = some v) : (k, v) ∈ m := by
  induction m with
  | nil => simp [lookupA] at h
  | cons kv rest ih =>
    obtain ⟨k₀, v₀⟩ := kv
    by_cases h₀ : k₀ = k
    · subst h₀
      simp [lookupA] at h
      simp [h]
    · simp [lookupA, h₀] at h
      exact List.mem_cons_of_mem _ (ih h)

/-! ## Data model (`src/models/Product.ts`, `src/models/Order.ts`, `src/unnamed/part_026`) -/

/-- `productSchema` (`src/models/Product.ts`): price, stock, rating, reviewCount,
sku, lastStockUpdate. Catalog-only fields (description, image, category,
featured) are irrelevant to every claim and omitted. -/
structure Product where
  name : String
  price : ℚ
  stock : ℤ
  rating : ℚ
  reviewCount : ℕ
  sku : String
  lastStockUpdate : Option ℕ
deriving DecidableEq

/-- `OrderStatus` enum (`src/types/models`). -/
inductive OrderStatus
  | pending | processing | shipped | delivered | cancelled
deriving DecidableEq

/-- `PaymentStatus` enum (`src/types/models`). -/
inductive PaymentStatus
  | pending | paid | failed | refunded
deriving DecidableEq

/-- `addressSchema` (`src/models/Order.ts`). -/
structure Address where
  street : String
  city : String
  state : String
  country : String
  zipCode : String
deriving DecidableEq

/-- A line item of `orderSchema.items`: product ref, quantity, price snapshot. -/
structure OrderItem where
  product : ℕ
  quantity : ℕ
  price : ℚ
deriving DecidableEq

/-- `orderSchema` (`src/models/Order.ts`). -/
structure Order where
  user : ℕ
  items : List OrderItem
  total : ℚ
  status : OrderStatus
  paymentStatus : PaymentStatus
  shippingAddress : Address
  paymentMethod : String
  trackingNumber : Option String
  deliveredAt : Option ℕ
  cancelledAt : Option ℕ
deriving DecidableEq

/-- `reviewSchema` (`src/unnamed/part_026`): product ref, user ref, rating, comment. -/
structure Review where
  product : ℕ
  user : ℕ
  rating : ℚ
  comment : String
deriving DecidableEq

/-- The whole data store: one assoc-list collection per entity, plus fresh-id
counters used when inserting new documents. -/
structure DB where
  products : List (ℕ × Product)
  orders : List (ℕ × Order)
  reviews : List (ℕ × Review)
  nextProductId : ℕ
  nextOrderId : ℕ
  nextReviewId : ℕ
deriving DecidableEq

/-- Typed rendering of the `Error` values thrown by the services (§7 of the
spec maps each message to a stable kind). -/
inductive SvcErr
  | productNotFound
  | insufficientStock
  | orderNotFound
  | invalidStateTransition
  | reviewNotFound
  | duplicateKey
deriving DecidableEq

/-- Stock of product `pid`, if it exists. -/
def stockOf (db : DB) (pid : ℕ) : Option ℤ :=
  (lookupA db.products pid).map (·.stock)

/-! ## Order fulfillment (`OrderService`, `src/unnamed/part_000`) -/

/-- A requested line item of `OrderCreateData.items`: the caller supplies a
product id, a quantity and a price (which `createOrder` discards). -/
structure OrderItemReq where
  product : ℕ
  quantity : ℕ
  price : ℚ
deriving DecidableEq

/-- The validation map of `createOrder` (`src/unnamed/part_000` lines 53–68):
for each item look up the product (`NotFound` if missing, `InsufficientStock`
if `product.stock < item.quantity`) and snapshot `price := product.price`.
All reads happen against the pre-transaction state `db`. -/
def validateItems (db : DB) : List OrderItemReq → Except SvcErr (List OrderItem)
  | [] => .ok []
  | i :: rest =>
    match lookupA db.products i.product with
    | none => .error .productNotFound
    | some p =>
      if p.stock < (i.quantity : ℤ) then .error .insufficientStock
      else
        match validateItems db rest with
        | .error e => .error e
        | .ok rest' => .ok (⟨i.product, i.quantity, p.price⟩ :: rest')

/-- `$inc: { stock: -item.quantity }` applied per item
(`src/unnamed/part_000` lines 88–94). -/
def decStock (db : DB) (items : List OrderItem) : DB :=
  items.foldl
    (fun acc it =>
      { acc with
        products := modifyA acc.products it.product
          (fun p => { p with stock := p.stock - (it.quantity : ℤ) }) })
    db

/-- `$inc: { stock: item.quantity }` applied per item
(`src/unnamed/part_000` lines 171–177). -/
def incStock (db : DB) (items : List OrderItem) : DB :=
  items.foldl
    (fun acc it =>
      { acc with
        products := modifyA acc.products it.product
          (fun p => { p with stock := p.stock + (it.quantity : ℤ) }) })
    db

/-- `OrderService.createOrder` (`src/unnamed/part_000` lines 44–115):
validate/snapshot every item, compute the total, insert the order with
`status = pending`, `paymentStatus = pending`, then decrement each product's
stock; any thrown error aborts the transaction (modelled by `Except.error`
with no state returned). -/
def createOrder (db : DB) (userId : ℕ) (reqItems : List OrderItemReq)
    (addr : Address) (method : String) : Except SvcErr (DB × ℕ) :=
  match validateItems db reqItems with
  | .error e => .error e
  | .ok items =>
    let total := (items.map (fun it => it.price * (it.quantity : ℚ))).sum
    let oid := db.nextOrderId
    let order : Order :=
      { user := userId, items := items, total := total,
        status := .pending, paymentStatus := .pending,
        shippingAddress := addr, paymentMethod := method,
        trackingNumber := none, deliveredAt := none, cancelledAt := none }
    let db1 := { db with orders := insertA db.orders oid order,
                         nextOrderId := oid + 1 }
    .ok (decStock db1 items, oid)

/-- Committed-state view of `createOrder`: a thrown error aborts the
transaction, so the committed state is the original one. -/
def createOrderRun (db : DB) (userId : ℕ) (reqItems : List OrderItemReq)
    (addr : Address) (method : String) : DB × Except SvcErr ℕ :=
  match createOrder db userId reqItems addr method with
  | .ok (db', oid) => (db', .ok oid)
  | .error e => (db, .error e)

/-- `OrderUpdateData` (`src/unnamed/part_000` lines 31–36). -/
structure OrderUpdateData where
  status : Option OrderStatus
  paymentStatus : Option PaymentStatus
  trackingNumber : Option String
  shippingAddress : Option Address
deriving DecidableEq

/-- The patch `{...data, ...(data.status === DELIVERED && {deliveredAt: new Date()})}`
applied by `findByIdAndUpdate` (`src/unnamed/part_000` lines 126–129). -/
def applyOrderPatch (o : Order) (d : OrderUpdateData) (now : ℕ) : Order :=
  { o with
    status := d.status.getD o.status,
    paymentStatus := d.paymentStatus.getD o.paymentStatus,
    trackingNumber := match d.trackingNumber with
      | some t => some t
      | none => o.trackingNumber,
    shippingAddress := d.shippingAddress.getD o.shippingAddress,
    deliveredAt := if d.status = some .delivered then some now else o.deliveredAt }

/-- `OrderService.updateOrder` (`src/unnamed/part_000` lines 118–150):
a `findByIdAndUpdate`, which does *not* run the schema's `save` middleware.
Returns `none` (after aborting) when the order does not exist. -/
def updateOrder (db : DB) (oid : ℕ) (d : OrderUpdateData) (now : ℕ) :
    DB × Option Order :=
  match lookupA db.orders oid with
  | none => (db, none)
  | some o =>
    let o' := applyOrderPatch o d now
    ({ db with orders := modifyA db.orders oid (fun _ => o') }, some o')

/-- `orderSchema.methods.updateStatus` (`src/models/Order.ts` lines 106–112)
followed by `document.save()`, which runs the `pre('save')` middleware
(lines 155–166): when the status field was modified and the new status is
`delivered`, the middleware decrements every line item's product stock by its
quantity (`$inc: { stock: -item.quantity }`, no floor check). -/
def orderUpdateStatus (db : DB) (oid : ℕ) (status : OrderStatus) (now : ℕ) :
    DB × Option Order :=
  match lookupA db.orders oid with
  | none => (db, none)
  | some o =>
    let modified := o.status ≠ status
    let o' := { o with
      status := status,
      deliveredAt := if status = .delivered then some now else o.deliveredAt }
    let db1 := { db with orders := modifyA db.orders oid (fun _ => o') }
    let db2 := if modified ∧ status = .delivered then decStock db1 o.items else db1
    (db2, some o')

/-- `OrderService.cancelOrder` (`src/unnamed/part_000` lines 153–203):
load the order (`Order not found` if missing), reject unless the status is
`pending` or `processing`, restore each item's stock with `$inc`, then set
`status = cancelled` and `cancelledAt`. Any throw aborts the transaction. -/
def cancelOrder (db : DB) (oid : ℕ) (now : ℕ) : Except SvcErr (DB × Order) :=
  match lookupA db.orders oid with
  | none => .error .orderNotFound
  | some o =>
    if o.status ≠ .pending ∧ o.status ≠ .processing then
      .error .invalidStateTransition
    else
      let db1 := incStock db o.items
      let o' := { o with status := .cancelled, cancelledAt := some now }
      .ok ({ db1 with orders := modifyA db1.orders oid (fun _ => o') }, o')

/-- Committed-state view of `cancelOrder` (abort keeps the original state). -/
def cancelOrderRun (db : DB) (oid : ℕ) (now : ℕ) : DB × Except SvcErr Order :=
  match cancelOrder db oid now with
  | .ok (db', o) => (db', .ok o)
  | .error e => (db, .error e)

/-! ## Inventory manager (`ProductService`, `src/services/ReviewService.ts`
second document, and `productSchema` in `src/models/Product.ts`) -/

/-- `ProductService.updateStock` (`src/services/ReviewService.ts` lines
244–284): read the product (`Product not found` if missing), compute
`newStock = stock + quantity`, reject with `Insufficient stock` if negative,
otherwise persist `stock = newStock` and `lastStockUpdate = now`. Failures
return an error result and change nothing. -/
def updateStock (db : DB) (pid : ℕ) (quantity : ℤ) (now : ℕ) :
    DB × Except SvcErr Product :=
  match lookupA db.products pid with
  | none => (db, .error .productNotFound)
  | some p =>
    let newStock := p.stock + quantity
    if newStock < 0 then (db, .error .insufficientStock)
    else
      let p' := { p with stock := newStock, lastStockUpdate := some now }
      ({ db with products := modifyA db.products pid (fun _ => p') }, .ok p')

/-- `ProductCreateData`: the caller-supplied fields of `ProductService.create`
that the claims mention; the caller may supply an explicit `sku`. -/
structure ProductCreateData where
  name : String
  price : ℚ
  stock : ℤ
  sku : Option String
deriving DecidableEq

/-- `ProductService.generateSKU` (`src/services/ReviewService.ts` lines
321–332): `name.substring(0, 3).toUpperCase().replace(/[^A-Z]/g, '')
.padEnd(3, 'X')` followed by `(count + 1).toString().padStart(4, '0')`
where `count` is the current number of product documents. `toUpperCase` is
modelled on its ASCII fragment (`Char.toUpper`), which the subsequent
`[^A-Z]` filter makes an exact match for ASCII names. -/
def generateSKU (db : DB) (name : String) : String :=
  let upper := (name.toList.take 3).map Char.toUpper
  let letters := upper.filter (fun c => 65 ≤ c.toNat ∧ c.toNat ≤ 90)
  let prefixPart := String.mk (letters ++ List.replicate (3 - letters.length) 'X')
  let digits := Nat.repr (db.products.length + 1)
  let suffixPart := String.mk (List.replicate (4 - digits.length) '0') ++ digits
  prefixPart ++ suffixPart

/-- `ProductService.create` (`src/services/ReviewService.ts` lines 311–318):
always computes `sku := generateSKU(data.name || '')` and passes
`{...data, sku}` to `super.create`, so the spread's later `sku` wins over any
caller-supplied one; `rating`/`reviewCount` take their schema defaults `0`. -/
def productCreate (db : DB) (d : ProductCreateData) : DB × Product :=
  let sku := generateSKU db d.name
  let p : Product :=
    { name := d.name, price := d.price, stock := d.stock,
      rating := 0, reviewCount := 0, sku := sku, lastStockUpdate := none }
  let pid := db.nextProductId
  ({ db with products := insertA db.products pid p, nextProductId := pid + 1 }, p)

/-- `ProductService.update` with a `$set: { price }` patch — the generic
`BaseService.update` (`findByIdAndUpdate`) used for later product price
edits. -/
def productSetPrice (db : DB) (pid : ℕ) (price : ℚ) : DB :=
  { db with products := modifyA db.products pid (fun p => { p with price := price }) }

/-! ## Rating aggregator (`ReviewService`, `src/services/ReviewService.ts`) -/

/-- `ReviewCreateData` (`src/services/ReviewService.ts` lines 7–12). -/
structure ReviewCreateData where
  product : ℕ
  user : ℕ
  rating : ℚ
  comment : String
deriving DecidableEq

/-- `ReviewUpdateData` (`src/services/ReviewService.ts` lines 14–17). -/
structure ReviewUpdateData where
  comment : Option String
  rating : Option ℚ
deriving DecidableEq

/-- `ReviewService.createReview` (`src/services/ReviewService.ts` lines
24–50): inside one transaction, look up the product (`Product not found` if
missing), insert the review — the unique `{product: 1, user: 1}` index of
`src/unnamed/part_026` line 36 makes the insert throw a duplicate-key error
when a review for the same pair already exists, aborting the transaction —
then set `reviewCount += 1` and
`rating := (rating·reviewCount + data.rating) / (reviewCount + 1)`. -/
def createReview (db : DB) (d : ReviewCreateData) : Except SvcErr (DB × ℕ) :=
  match lookupA db.products d.product with
  | none => .error .productNotFound
  | some product =>
    if db.reviews.any (fun kv => kv.2.product = d.product ∧ kv.2.user = d.user)
    then .error .duplicateKey
    else
      let rid := db.nextReviewId
      let rev : Review :=
        { product := d.product, user := d.user,
          rating := d.rating, comment := d.comment }
      let db1 := { db with reviews := insertA db.reviews rid rev,
                           nextReviewId := rid + 1 }
      let currentTotal := product.rating * (product.reviewCount : ℚ)
      let newCount : ℕ := product.reviewCount + 1
      let newRating := (currentTotal + d.rating) / (newCount : ℚ)
      let db2 := { db1 with
        products := modifyA db1.products d.product
          (fun p => { p with reviewCount := p.reviewCount + 1, rating := newRating }) }
      .ok (db2, rid)

/-- The store actions `createReview` attempts, in program order
(`src/services/ReviewService.ts` lines 24–50): a product read, then —
without any prior existence check for the `(product, user)` pair — the review
insertion (which is where a duplicate-key error can arise), then the product
update. -/
inductive StoreAction
  | readProduct (pid : ℕ)
  | insertReview (pid uid : ℕ)
  | updateProduct (pid : ℕ)
deriving DecidableEq

/-- Program-order action trace of `createReview` over the same case analysis
as the state function: the trace stops at the first throwing action. -/
def createReviewActs (db : DB) (d : ReviewCreateData) : List StoreAction :=
  match lookupA db.products d.product with
  | none => [.readProduct d.product]
  | some _ =>
    if db.reviews.any (fun kv => kv.2.product = d.product ∧ kv.2.user = d.user)
    then [.readProduct d.product, .insertReview d.product d.user]
    else [.readProduct d.product, .insertReview d.product d.user,
          .updateProduct d.product]

/-- The spread `...(data.comment && { comment: data.comment })` of the review
patch: a truthy (non-empty) comment replaces the old one, a falsy one is
dropped. -/
def applyComment (dc : Option String) (old : String) : String :=
  match dc with
  | some c => if c ≠ "" then c else old
  | none => old

/-- JavaScript's `n || 1` on a count (0 is falsy), as used in
`product.reviewCount || 1`. -/
def orOne (n : ℕ) : ℕ :=
  if n = 0 then 1 else n

/-- `ReviewService.updateReview` (`src/services/ReviewService.ts` lines
52–81): look up the review (`Review not found` if missing); when the patch
carries a truthy rating different from the current one, look up the product
and set `rating := (rating·(reviewCount || 1) − review.rating + data.rating)
/ (reviewCount || 1)`; finally apply to the review only the truthy fields of
the patch (`...(data.rating && {rating})`, `...(data.comment && {comment})`:
a rating of `0` or an empty-string comment is dropped). -/
def updateReview (db : DB) (rid : ℕ) (d : ReviewUpdateData) :
    Except SvcErr (DB × Review) :=
  match lookupA db.reviews rid with
  | none => .error .reviewNotFound
  | some review =>
    match d.rating with
    | some r =>
      if r ≠ 0 ∧ r ≠ review.rating then
        match lookupA db.products review.product with
        | none => .error .productNotFound
        | some product =>
          let cnt : ℚ := (orOne product.reviewCount : ℚ)
          let currentTotal := product.rating * cnt
          let newRating := (currentTotal - review.rating + r) / cnt
          let db1 := { db with
            products := modifyA db.products review.product
              (fun p => { p with rating := newRating }) }
          let review' := { review with
            rating := r, comment := applyComment d.comment review.comment }
          .ok ({ db1 with reviews := modifyA db1.reviews rid (fun _ => review') },
               review')
      else
        let review' := { review with
          rating := if r ≠ 0 then r else review.rating,
          comment := applyComment d.comment review.comment }
        .ok ({ db with reviews := modifyA db.reviews rid (fun _ => review') },
             review')
    | none =>
      let review' := { review with
        comment := applyComment d.comment review.comment }
      .ok ({ db with reviews := modifyA db.reviews rid (fun _ => review') },
           review')

/-- `ReviewService.deleteReview` (`src/services/ReviewService.ts` lines
83–115): look up the review and its product; with `currentCount =
reviewCount || 1`, either reset `rating = 0, reviewCount = 0` when
`currentCount === 1`, or set `reviewCount -= 1` and `rating :=
(rating·currentCount − review.rating) / (currentCount − 1)`; then delete the
review. -/
def deleteReview (db : DB) (rid : ℕ) : Except SvcErr (DB × Review) :=
  match lookupA db.reviews rid with
  | none => .error .reviewNotFound
  | some review =>
    match lookupA db.products review.product with
    | none => .error .productNotFound
    | some product =>
      let currentCount : ℕ := orOne product.reviewCount
      let db1 :=
        if currentCount = 1 then
          { db with
            products := modifyA db.products review.product
              (fun p => { p with rating := 0, reviewCount := 0 }) }
        else
          let currentTotal := product.rating * (currentCount : ℚ)
          let newRating := (currentTotal - review.rating) / ((currentCount : ℚ) - 1)
          { db with
            products := modifyA db.products review.product
              (fun p => { p with reviewCount := p.reviewCount - 1, rating := newRating }) }
      .ok ({ db1 with reviews := removeA db1.reviews rid }, review)

/-- One review-workflow call; a thrown error aborts the transaction, so the
committed state after a failed call is the original one. -/
inductive ReviewOp
  | create (d : ReviewCreateData)
  | update (rid : ℕ) (d : ReviewUpdateData)
  | delete (rid : ℕ)

/-- Committed state after one review operation. -/
def applyReviewOp (db : DB) : ReviewOp → DB
  | .create d =>
    match createReview db d with
    | .ok (db', _) => db'
    | .error _ => db
  | .update rid d =>
    match updateReview db rid d with
    | .ok (db', _) => db'
    | .error _ => db
  | .delete rid =>
    match deleteReview db rid with
    | .ok (db', _) => db'
    | .error _ => db

/-- Committed state after a sequence of review operations. -/
def runReviewOps (db : DB) (ops : List ReviewOp) : DB :=
  ops.foldl applyReviewOp db

/-! ## Helper lemmas: stock folds -/

/-- Total quantity that the items of an order request for product `pid`. -/
def qtySum (items : List OrderItem) (pid : ℕ) : ℤ :=
  ((items.filter (fun it => it.product = pid)).map (fun it => (it.quantity : ℤ))).sum

theorem qtySum_cons (it : OrderItem) (rest : List OrderItem) (pid : ℕ) :
    qtySum (it :: rest) pid =
      (if it.product = pid then (it.quantity : ℤ) else 0) + qtySum rest pid := by
  by_cases h : it.product = pid <;> simp [qtySum, List.filter_cons, h]

theorem incStock_orders (db : DB) (items : List OrderItem) :
    (incStock db items).orders = db.orders := by
  induction items generalizing db with
  | nil => rfl
  | cons it rest ih => exact ih _

theorem incStock_reviews (db : DB) (items : List OrderItem) :
    (incStock db items).reviews = db.reviews := by
  induction items generalizing db with
  | nil => rfl
  | cons it rest ih => exact ih _

theorem decStock_orders (db : DB) (items : List OrderItem) :
    (decStock db items).orders = db.orders := by
  induction items generalizing db with
  | nil => rfl
  | cons it rest ih => exact ih _

theorem decStock_reviews (db : DB) (items : List OrderItem) :
    (decStock db items).reviews = db.reviews := by
  induction items generalizing db with
  | nil => rfl
  | cons it rest ih => exact ih _

theorem lookupA_incStock (db : DB) (items : List OrderItem) (pid : ℕ) :
    lookupA (incStock db items).products pid =
      (lookupA db.products pid).map
        (fun p => { p with stock := p.stock + qtySum items pid }) := by
  induction items generalizing db with
  | nil =>
    cases h : lookupA db.products pid <;> simp [incStock, qtySum, h]
  | cons it rest ih =>
    have hstep : incStock db (it :: rest) =
        incStock { db with
          products := modifyA db.products it.product
            (fun p => { p with stock := p.stock + (it.quantity : ℤ) }) } rest := rfl
    rw [hstep, ih, lookupA_modifyA, qtySum_cons]
    by_cases h : it.product = pid
    · subst h
      rw [if_pos rfl, if_pos rfl]
      cases hp : lookupA db.products it.product <;> simp [add_assoc]
    · have h' : ¬ pid = it.product := fun hh => h hh.symm
      rw [if_neg h', if_neg h]
      simp

theorem lookupA_decStock (db : DB) (items : List OrderItem) (pid : ℕ) :
    lookupA (decStock db items).products pid =
      (lookupA db.products pid).map
        (fun p => { p with stock := p.stock - qtySum items pid }) := by
  induction items generalizing db with
  | nil =>
    cases h : lookupA db.products pid <;> simp [decStock, qtySum, h]
  | cons it rest ih =>
    have hstep : decStock db (it :: rest) =
        decStock { db with
          products := modifyA db.products it.product
            (fun p => { p with stock := p.stock - (it.quantity : ℤ) }) } rest := rfl
    rw [hstep, ih, lookupA_modifyA, qtySum_cons]
    by_cases h : it.product = pid
    · subst h
      rw [if_pos rfl, if_pos rfl]
      cases hp : lookupA db.products it.product <;> simp [sub_sub]
    · have h' : ¬ pid = it.product := fun hh => h hh.symm
      rw [if_neg h', if_neg h]
      simp

/-! ## Helper lemmas: review sums and nodup decomposition -/

/-- The reviews currently existing for product `pid` (as store entries). -/
def reviewsFor (l : List (ℕ × Review)) (pid : ℕ) : List (ℕ × Review) :=
  l.filter (fun kv => kv.2.product = pid)

/-- Sum of the ratings of the reviews for `pid`. -/
def ratingSum (l : List (ℕ × Review)) (pid : ℕ) : ℚ :=
  ((reviewsFor l pid).map (fun kv => kv.2.rating)).sum

/-- Number of reviews for `pid`. -/
def ratingCount (l : List (ℕ × Review)) (pid : ℕ) : ℕ :=
  (reviewsFor l pid).length

theorem ratingSum_append (a b : List (ℕ × Review)) (pid : ℕ) :
    ratingSum (a ++ b) pid = ratingSum a pid + ratingSum b pid := by
  simp [ratingSum, reviewsFor, List.filter_append]

theorem ratingCount_append (a b : List (ℕ × Review)) (pid : ℕ) :
    ratingCount (a ++ b) pid = ratingCount a pid + ratingCount b pid := by
  simp [ratingCount, reviewsFor, List.filter_append]

theorem ratingSum_cons (k : ℕ) (v : Review) (l : List (ℕ × Review)) (pid : ℕ) :
    ratingSum ((k, v) :: l) pid =
      (if v.product = pid then v.rating else 0) + ratingSum l pid := by
  by_cases h : v.product = pid <;> simp [ratingSum, reviewsFor, List.filter_cons, h]

theorem ratingCount_cons (k : ℕ) (v : Review) (l : List (ℕ × Review)) (pid : ℕ) :
    ratingCount ((k, v) :: l) pid =
      (if v.product = pid then 1 else 0) + ratingCount l pid := by
  by_cases h : v.product = pid <;>
    simp [ratingCount, reviewsFor, List.filter_cons, h, Nat.add_comm]

theorem ratingSum_eq_zero_of_count_eq_zero (l : List (ℕ × Review)) (pid : ℕ)
    (h : ratingCount l pid = 0) : ratingSum l pid = 0 := by
  have : reviewsFor l pid = [] := List.length_eq_zero.mp h
  simp [ratingSum, this]

/-- Key-uniqueness decomposition: if the keys of `l` are distinct and `k`
binds `v`, then `l` splits as `l₁ ++ (k, v) :: l₂` with `k` absent from both
sides. -/
theorem decomp_of_lookup_nodup {α : Type} (l : List (ℕ × α)) (k : ℕ) (v : α)
    (hnd : (l.map Prod.fst).Nodup) (hl : lookupA l k = some v) :
    ∃ l₁ l₂, l = l₁ ++ (k, v) :: l₂ ∧
      k ∉ l₁.map Prod.fst ∧ k ∉ l₂.map Prod.fst := by
  induction l with
  | nil => simp [lookupA] at hl
  | cons kv rest ih =>
    obtain ⟨k₀, v₀⟩ := kv
    rw [List.map_cons, List.nodup_cons] at hnd
    by_cases h₀ : k₀ = k
    · subst h₀
      rw [lookupA_cons, if_pos rfl] at hl
      obtain rfl : v₀ = v := Option.some.inj hl
      exact ⟨[], rest, rfl, by simp, fun hmem => hnd.1 hmem⟩
    · rw [lookupA_cons, if_neg h₀] at hl
      obtain ⟨l₁, l₂, heq, h₁, h₂⟩ := ih hnd.2 hl
      refine ⟨(k₀, v₀) :: l₁, l₂, by rw [heq]; rfl, ?_, h₂⟩
      simp only [List.map_cons, List.mem_cons]
      rintro (h | h)
      · exact h₀ h.symm
      · exact h₁ h

theorem modifyA_append {α : Type} (a b : List (ℕ × α)) (k : ℕ) (f : α → α) :
    modifyA (a ++ b) k f = modifyA a k f ++ modifyA b k f := by
  simp [modifyA]

theorem modifyA_of_not_mem {α : Type} (l : List (ℕ × α)) (k : ℕ) (f : α → α)
    (h : k ∉ l.map Prod.fst) : modifyA l k f = l := by
  induction l with
  | nil => rfl
  | cons kv rest ih =>
    obtain ⟨k₀, v₀⟩ := kv
    simp only [List.map_cons, List.mem_cons] at h
    push_neg at h
    rw [modifyA_cons_neg v₀ rest f (fun hh => h.1 hh.symm), ih h.2]

theorem removeA_append {α : Type} (a b : List (ℕ × α)) (k : ℕ) :
    removeA (a ++ b) k = removeA a k ++ removeA b k := by
  simp [removeA]

theorem removeA_of_not_mem {α : Type} (l : List (ℕ × α)) (k : ℕ)
    (h : k ∉ l.map Prod.fst) : removeA l k = l := by
  induction l with
  | nil => rfl
  | cons kv rest ih =>
    obtain ⟨k₀, v₀⟩ := kv
    simp only [List.map_cons, List.mem_cons] at h
    push_neg at h
    rw [removeA_cons_neg v₀ rest (fun hh => h.1 hh.symm), ih h.2]

theorem keys_modifyA {α : Type} (l : List (ℕ × α)) (k : ℕ) (f : α → α) :
    (modifyA l k f).map Prod.fst = l.map Prod.fst := by
  induction l with
  | nil => rfl
  | cons kv rest ih =>
    obtain ⟨k₀, v₀⟩ := kv
    by_cases h : k₀ = k
    · rw [modifyA_cons_pos v₀ rest f h]
      simp [ih]
    · rw [modifyA_cons_neg v₀ rest f h]
      simp [ih]

/-- `modifyA` under distinct keys: the sums over any product change only by
the delta of the single rewritten review. -/
theorem ratingSum_modifyA (l : List (ℕ × Review)) (rid : ℕ) (r r' : Review)
    (hnd : (l.map Prod.fst).Nodup) (hl : lookupA l rid = some r)
    (pid : ℕ) :
    ratingSum (modifyA l rid (fun _ => r')) pid =
      ratingSum l pid
        - (if r.product = pid then r.rating else 0)
        + (if r'.product = pid then r'.rating else 0) := by
  obtain ⟨l₁, l₂, rfl, h₁, h₂⟩ := decomp_of_lookup_nodup l rid r hnd hl
  rw [modifyA_append, modifyA_of_not_mem l₁ rid _ h₁,
    show modifyA ((rid, r) :: l₂) rid (fun _ => r') =
      (rid, r') :: modifyA l₂ rid (fun _ => r') from
        modifyA_cons_pos r l₂ _ rfl,
    modifyA_of_not_mem l₂ rid _ h₂,
    ratingSum_append, ratingSum_append, ratingSum_cons, ratingSum_cons]
  ring

theorem ratingCount_modifyA (l : List (ℕ × Review)) (rid : ℕ) (r r' : Review)
    (hnd : (l.map Prod.fst).Nodup) (hl : lookupA l rid = some r)
    (hp : r'.product = r.product) (pid : ℕ) :
    ratingCount (modifyA l rid (fun _ => r')) pid = ratingCount l pid := by
  obtain ⟨l₁, l₂, rfl, h₁, h₂⟩ := decomp_of_lookup_nodup l rid r hnd hl
  rw [modifyA_append, modifyA_of_not_mem l₁ rid _ h₁,
    show modifyA ((rid, r) :: l₂) rid (fun _ => r') =
      (rid, r') :: modifyA l₂ rid (fun _ => r') from
        modifyA_cons_pos r l₂ _ rfl,
    modifyA_of_not_mem l₂ rid _ h₂,
    ratingCount_append, ratingCount_append, ratingCount_cons, ratingCount_cons, hp]

theorem ratingSum_removeA (l : List (ℕ × Review)) (rid : ℕ) (r : Review)
    (hnd : (l.map Prod.fst).Nodup) (hl : lookupA l rid = some r) (pid : ℕ) :
    ratingSum (removeA l rid) pid =
      ratingSum l pid - (if r.product = pid then r.rating else 0) := by
  obtain ⟨l₁, l₂, rfl, h₁, h₂⟩ := decomp_of_lookup_nodup l rid r hnd hl
  rw [removeA_append, removeA_of_not_mem l₁ rid h₁,
    show removeA ((rid, r) :: l₂) rid = removeA l₂ rid from
      removeA_cons_pos r l₂ rfl,
    removeA_of_not_mem l₂ rid h₂,
    ratingSum_append, ratingSum_append, ratingSum_cons]
  ring

theorem ratingCount_removeA (l : List (ℕ × Review)) (rid : ℕ) (r : Review)
    (hnd : (l.map Prod.fst).Nodup) (hl : lookupA l rid = some r) (pid : ℕ) :
    ratingCount (removeA l rid) pid =
      ratingCount l pid - (if r.product = pid then 1 else 0) := by
  obtain ⟨l₁, l₂, rfl, h₁, h₂⟩ := decomp_of_lookup_nodup l rid r hnd hl
  rw [removeA_append, removeA_of_not_mem l₁ rid h₁,
    show removeA ((rid, r) :: l₂) rid = removeA l₂ rid from
      removeA_cons_pos r l₂ rfl,
    removeA_of_not_mem l₂ rid h₂,
    ratingCount_append, ratingCount_append, ratingCount_cons]
  by_cases h : r.product = pid <;> simp [h]
  omega

theorem ratingCount_pos_of_lookup (l : List (ℕ × Review)) (rid : ℕ) (r : Review)
    (hl : lookupA l rid = some r) (hp : r.product = pid) :
    1 ≤ ratingCount l pid := by
  have hmem : (rid, r) ∈ l := lookupA_mem l rid r hl
  have : (rid, r) ∈ reviewsFor l pid := by
    simp [reviewsFor, List.mem_filter, hmem, hp]
  calc 1 ≤ (reviewsFor l pid).length := List.length_pos_of_mem this
    _ = ratingCount l pid := rfl

/-- Decidable equality of service results, for evaluating the operations at
concrete inputs. -/
instance instDecEqExcept {ε α : Type} [DecidableEq ε] [DecidableEq α] :
    DecidableEq (Except ε α) := fun x y =>
  match x, y with
  | .ok a, .ok b =>
    if h : a = b then .isTrue (by rw [h])
    else .isFalse (fun hh => h (Except.ok.inj hh))
  | .ok _, .error _ => .isFalse (fun hh => Except.noConfusion hh)
  | .error _, .ok _ => .isFalse (fun hh => Except.noConfusion hh)
  | .error e, .error f =>
    if h : e = f then .isTrue (by rw [h])
    else .isFalse (fun hh => h (Except.error.inj hh))

/-- Overwrite the document stored for `pid` with `p` (the committed effect of
a `findByIdAndUpdate` whose patch fixes every tracked field). -/
def setProductDoc (db : DB) (pid : ℕ) (p : Product) : DB :=
  { db with products := modifyA db.products pid (fun _ => p) }

/-! ## Spec-side definition for claim C9 -/

/-- Spec-side SKU formula, written from the claim's words: the first 3
characters of the name uppercased with non-letters removed and right-padded
with `'X'` to length 3, followed by (current product count + 1) zero-padded
to 4 digits. For comparison against the source-side `generateSKU`. -/
def skuSpecFormula (name : String) (count : ℕ) : String :=
  let letters := ((name.toList.take 3).map Char.toUpper).filter Char.isUpper
  let prefixPart := String.mk (letters ++ List.replicate (3 - letters.length) 'X')
  let digits := Nat.repr (count + 1)
  prefixPart ++ (String.mk (List.replicate (4 - digits.length) '0') ++ digits)

/-! ## Concrete states used by the code-bug and counterexample theorems -/

/-- A catalog with one product, id 1, stock 5, price 10 (the spec's §8
scenario product). -/
def widgetProduct : Product :=
  { name := "Widget", price := 10, stock := 5, rating := 0, reviewCount := 0,
    sku := "WID0001", lastStockUpdate := none }

def someAddress : Address :=
  { street := "1 Main St", city := "Springfield", state := "IL",
    country := "US", zipCode := "62701" }

def dbWidget : DB :=
  { products := [(1, widgetProduct)], orders := [], reviews := [],
    nextProductId := 2, nextOrderId := 10, nextReviewId := 0 }

/-- The §8 scenario's order once moved to `processing`: 3 units of product 1
at the snapshotted price 10. -/
def processingOrder : Order :=
  { user := 100, items := [⟨1, 3, 10⟩], total := 30,
    status := .processing, paymentStatus := .pending,
    shippingAddress := someAddress, paymentMethod := "card",
    trackingNumber := none, deliveredAt := none, cancelledAt := none }

/-- State with product 1 at stock 2 and the processing order 10 for 3 units
of it — exactly the committed state after the §8 scenario's `createOrder`
(stock 5 → 2) and a `processing` progression. -/
def dbProcessing : DB :=
  { products := [(1, { widgetProduct with stock := 2 })],
    orders := [(10, processingOrder)],
    reviews := [], nextProductId := 2, nextOrderId := 11, nextReviewId := 0 }

/-- State where user 2 already holds review 0 for product 1. -/
def dbReviewed : DB :=
  { products := [(1, { widgetProduct with rating := 4, reviewCount := 1 })],
    orders := [],
    reviews := [(0, { product := 1, user := 2, rating := 4, comment := "ok" })],
    nextProductId := 2, nextOrderId := 0, nextReviewId := 1 }

/-! ## Claim theorems -/

/-- **C1** (code bug): the stock-nonnegativity invariant is violated by the
committed operation sequence `createOrder` (product 1: stock 5 → 2) followed
by the order-status update to `delivered`: the `pre('save')` middleware of
`src/models/Order.ts` decrements stock again with no floor check, driving
product 1's stock to −1 < 0. -/
theorem C1_stock_goes_negative :
    (createOrderRun dbWidget 100 [⟨1, 3, 99⟩] someAddress "card").2 = .ok 10 ∧
    stockOf (createOrderRun dbWidget 100 [⟨1, 3, 99⟩] someAddress "card").1 1 =
      some 2 ∧
    stockOf
      (orderUpdateStatus
        (createOrderRun dbWidget 100 [⟨1, 3, 99⟩] someAddress "card").1
        10 .delivered 0).1 1 = some (-1) := by
  decide

/-- **C6** (code bug): an order update other than cancellation — the
status update to `delivered` via `orderSchema.methods.updateStatus` and the
`pre('save')` middleware — *does* modify a product's stock: product 1's
stock is 2 before the update and −1 after it. -/
theorem C6_delivery_changes_stock :
    stockOf dbProcessing 1 = some 2 ∧
    (orderUpdateStatus dbProcessing 10 .delivered 7).2 ≠ none ∧
    stockOf (orderUpdateStatus dbProcessing 10 .delivered 7).1 1 = some (-1) := by
  decide

/-- **C7** counterexample: `createReview` on a pair that already has a review
does fail with the duplicate-key error, but the duplicate is *not* detected
before insertion: the action trace of the failing call is exactly a product
read followed by the review-insertion attempt — no check of existing reviews
precedes the insert; the unique index rejects the insert itself. -/
theorem C7_detection_not_before_insertion :
    createReview dbReviewed ⟨1, 2, 5, "again"⟩ = .error .duplicateKey ∧
    createReviewActs dbReviewed ⟨1, 2, 5, "again"⟩ =
      [.readProduct 1, .insertReview 1 2] := by
  decide

/-- **C8**: `ProductService.updateStock` — for a missing product it fails
with the not-found error leaving the state unchanged; for an existing
product with stock `s`, if `s + delta < 0` it fails with the
insufficient-stock error leaving the state unchanged, otherwise it persists
`stock = s + delta` together with the `lastStockUpdate` timestamp and
touches nothing else. -/
theorem C8_updateStock_spec (db : DB) (pid : ℕ) (q : ℤ) (now : ℕ) :
    (lookupA db.products pid = none →
      updateStock db pid q now = (db, .error .productNotFound)) ∧
    (∀ p, lookupA db.products pid = some p →
      (p.stock + q < 0 →
        updateStock db pid q now = (db, .error .insufficientStock)) ∧
      (¬ p.stock + q < 0 →
        updateStock db pid q now =
          (setProductDoc db pid
              { p with stock := p.stock + q, lastStockUpdate := some now },
            .ok { p with stock := p.stock + q, lastStockUpdate := some now }) ∧
        lookupA (updateStock db pid q now).1.products pid =
          some { p with stock := p.stock + q, lastStockUpdate := some now } ∧
        (∀ pid', pid' ≠ pid →
          lookupA (updateStock db pid q now).1.products pid' =
            lookupA db.products pid') ∧
        (updateStock db pid q now).1.orders = db.orders ∧
        (updateStock db pid q now).1.reviews = db.reviews)) := by
  constructor
  · intro h
    simp [updateStock, h]
  · intro p hp
    constructor
    · intro hneg
      simp [updateStock, hp, hneg]
    · intro hpos
      have hrun : updateStock db pid q now =
          (setProductDoc db pid
              { p with stock := p.stock + q, lastStockUpdate := some now },
            .ok { p with stock := p.stock + q, lastStockUpdate := some now }) := by
        simp [updateStock, setProductDoc, hp, hpos]
      refine ⟨hrun, ?_, ?_, ?_, ?_⟩
      · rw [hrun]
        simp [setProductDoc, lookupA_modifyA, hp]
      · intro pid' hne
        rw [hrun]
        simp [setProductDoc, lookupA_modifyA, hne]
      · rw [hrun]
        rfl
      · rw [hrun]
        rfl

/-- Witness for C8 at a concrete input: product 1 with stock 5, delta −5. -/
theorem C8_updateStock_spec_witness :
    updateStock dbWidget 1 (-5) 3 =
      (setProductDoc dbWidget 1 { widgetProduct with stock := 0, lastStockUpdate := some 3 },
        .ok { widgetProduct with stock := 0, lastStockUpdate := some 3 }) := by
  have h := (C8_updateStock_spec dbWidget 1 (-5) 3).2 widgetProduct (by decide)
  exact (h.2 (by decide)).1

/-- **C9**: `ProductService.create` stores the generated SKU — the claim's
formula over the name and the current product count — and a caller-supplied
`sku` is silently discarded (the result does not depend on it at all). -/
theorem C9_sku_generated (db : DB) (d : ProductCreateData) :
    (productCreate db d).2.sku = skuSpecFormula d.name db.products.length ∧
    (productCreate db d).1.products =
      insertA db.products db.nextProductId (productCreate db d).2 ∧
    (∀ sk, productCreate db { d with sku := sk } = productCreate db d) := by
  refine ⟨?_, rfl, fun sk => rfl⟩
  show generateSKU db d.name = skuSpecFormula d.name db.products.length
  have hfilter :
      ((d.name.toList.take 3).map Char.toUpper).filter
          (fun c => 65 ≤ c.toNat ∧ c.toNat ≤ 90) =
        ((d.name.toList.take 3).map Char.toUpper).filter Char.isUpper := by
    apply List.filter_congr
    intro c _
    have h65 : ((65 : UInt32) ≤ c.val) = (65 ≤ c.toNat) := by
      rw [UInt32.le_def, BitVec.le_def]
      rfl
    have h90 : (c.val ≤ (90 : UInt32)) = (c.toNat ≤ 90) := by
      rw [UInt32.le_def, BitVec.le_def]
      rfl
    simp [Char.isUpper, GE.ge, h65, h90]
  simp only [generateSKU, skuSpecFormula, hfilter]

/-- **C10**: `updateReview` with a patch whose rating is absent or equal to
the review's current rating leaves the product collection entirely untouched
(hence rating and reviewCount unchanged), and a falsy comment (the empty
string) is never applied to the review. -/
theorem C10_updateReview_frame (db : DB) (rid : ℕ) (d : ReviewUpdateData)
    (db' : DB) (r' r : Review)
    (hr : lookupA db.reviews rid = some r)
    (h : updateReview db rid d = .ok (db', r')) :
    ((d.rating = none ∨ d.rating = some r.rating) → db'.products = db.products) ∧
    ((d.comment = some "") → r'.comment = r.comment) := by
  rw [updateReview.eq_def, hr] at h
  simp only [] at h
  constructor
  · intro hcase
    rcases hcase with hnone | hsome
    · rw [hnone] at h
      simp only [] at h
      obtain ⟨h1, _⟩ := Prod.mk.inj (Except.ok.inj h)
      rw [← h1]
    · rw [hsome] at h
      simp only [] at h
      have hcond : ¬ (r.rating ≠ 0 ∧ r.rating ≠ r.rating) := by
        intro hc
        exact hc.2 rfl
      rw [if_neg hcond] at h
      obtain ⟨h1, _⟩ := Prod.mk.inj (Except.ok.inj h)
      rw [← h1]
  · intro hc
    rw [hc] at h
    cases hdr : d.rating with
    | none =>
      rw [hdr] at h
      simp only [] at h
      obtain ⟨_, h2⟩ := Prod.mk.inj (Except.ok.inj h)
      rw [← h2]
      simp [applyComment]
    | some rv =>
      rw [hdr] at h
      simp only [] at h
      by_cases hchange : rv ≠ 0 ∧ rv ≠ r.rating
      · rw [if_pos hchange] at h
        cases hp : lookupA db.products r.product with
        | none =>
          rw [hp] at h
          simp only [] at h
          exact Except.noConfusion h
        | some product =>
          rw [hp] at h
          simp only [] at h
          obtain ⟨_, h2⟩ := Prod.mk.inj (Except.ok.inj h)
          rw [← h2]
          simp [applyComment]
      · rw [if_neg hchange] at h
        obtain ⟨_, h2⟩ := Prod.mk.inj (Except.ok.inj h)
        rw [← h2]
        simp [applyComment]

/-- Witness for C10 at a concrete input: a patch with no rating and an empty
comment leaves the stored state literally unchanged. -/
theorem C10_updateReview_frame_witness :
    (updateReview dbReviewed 0 ⟨some "", none⟩ =
        .ok (dbReviewed, { product := 1, user := 2, rating := 4, comment := "ok" })) ∧
    dbReviewed.products = dbReviewed.products ∧
    "ok" = "ok" := by
  refine ⟨by decide, ?_, ?_⟩
  · exact (C10_updateReview_frame dbReviewed 0 ⟨some "", none⟩ dbReviewed
      { product := 1, user := 2, rating := 4, comment := "ok" }
      { product := 1, user := 2, rating := 4, comment := "ok" }
      (by decide) (by decide)).1 (Or.inl rfl)
  · exact (C10_updateReview_frame dbReviewed 0 ⟨some "", none⟩ dbReviewed
      { product := 1, user := 2, rating := 4, comment := "ok" }
      { product := 1, user := 2, rating := 4, comment := "ok" }
      (by decide) (by decide)).2 rfl

/-- What successful validation guarantees per item: positions correspond, the
product exists with enough stock, and the snapshotted price is the product's
current price (the requested price is nowhere used). -/
theorem validateItems_spec (db : DB) (req : List OrderItemReq)
    (items : List OrderItem) (h : validateItems db req = .ok items) :
    List.Forall₂ (fun (ri : OrderItemReq) (it : OrderItem) =>
      it.product = ri.product ∧ it.quantity = ri.quantity ∧
      ∃ p, lookupA db.products ri.product = some p ∧
        ¬ p.stock < (ri.quantity : ℤ) ∧ it.price = p.price) req items := by
  induction req generalizing items with
  | nil =>
    rw [validateItems] at h
    obtain rfl := Except.ok.inj h
    exact List.Forall₂.nil
  | cons i rest ih =>
    rw [validateItems] at h
    cases hp : lookupA db.products i.product with
    | none =>
      rw [hp] at h
      simp only [] at h
      exact Except.noConfusion h
    | some p =>
      rw [hp] at h
      simp only [] at h
      by_cases hs : p.stock < (i.quantity : ℤ)
      · rw [if_pos hs] at h
        exact Except.noConfusion h
      · rw [if_neg hs] at h
        cases hrest : validateItems db rest with
        | error e =>
          rw [hrest] at h
          simp only [] at h
          exact Except.noConfusion h
        | ok rest' =>
          rw [hrest] at h
          simp only [] at h
          obtain rfl := Except.ok.inj h
          exact List.Forall₂.cons ⟨rfl, rfl, p, hp, hs, rfl⟩ (ih rest' hrest)

/-- **C3**: a successfully created order stores, at the returned id, an order
whose total is the sum over its line items of quantity times the price
snapshotted from the then-current product price (the caller-supplied price is
never used), and a later product price edit leaves the stored order — hence
its total — exactly as it was. -/
theorem C3_total_snapshot (db : DB) (userId : ℕ) (req : List OrderItemReq)
    (addr : Address) (method : String) (db' : DB) (oid : ℕ)
    (hfresh : lookupA db.orders db.nextOrderId = none)
    (h : createOrder db userId req addr method = .ok (db', oid)) :
    ∃ o, lookupA db'.orders oid = some o ∧
      o.total = (o.items.map (fun it => it.price * (it.quantity : ℚ))).sum ∧
      List.Forall₂ (fun (ri : OrderItemReq) (it : OrderItem) =>
        it.product = ri.product ∧ it.quantity = ri.quantity ∧
        ∃ p, lookupA db.products ri.product = some p ∧ it.price = p.price)
        req o.items ∧
      (∀ pid price,
        lookupA (productSetPrice db' pid price).orders oid = some o) := by
  rw [createOrder.eq_def] at h
  cases hv : validateItems db req with
  | error e =>
    rw [hv] at h
    simp only [] at h
    exact Except.noConfusion h
  | ok items =>
    rw [hv] at h
    simp only [] at h
    obtain ⟨h1, h2⟩ := Prod.mk.inj (Except.ok.inj h)
    subst h2
    have horders : db'.orders =
        insertA db.orders db.nextOrderId
          { user := userId, items := items,
            total := (items.map (fun it => it.price * (it.quantity : ℚ))).sum,
            status := .pending, paymentStatus := .pending,
            shippingAddress := addr, paymentMethod := method,
            trackingNumber := none, deliveredAt := none,
            cancelledAt := none } := by
      rw [← h1, decStock_orders]
    have hlook : lookupA db'.orders db.nextOrderId =
        some { user := userId, items := items,
               total := (items.map (fun it => it.price * (it.quantity : ℚ))).sum,
               status := .pending, paymentStatus := .pending,
               shippingAddress := addr, paymentMethod := method,
               trackingNumber := none, deliveredAt := none,
               cancelledAt := none } := by
      rw [horders,
        lookupA_insertA_fresh db.orders db.nextOrderId db.nextOrderId _ hfresh,
        if_pos rfl]
    refine ⟨_, hlook, rfl, ?_, fun pid price => hlook⟩
    exact (validateItems_spec db req items hv).imp
      (fun _ _ hi => ⟨hi.1, hi.2.1, hi.2.2.elim
        (fun p hp => ⟨p, hp.1, hp.2.2⟩)⟩)

/-- Committed state after the §8 scenario's `createOrder` against
`dbWidget`: stock 5 → 2, pending order 10 with snapshotted price 10 and
total 30. -/
def dbAfterOrder : DB :=
  { products := [(1, { widgetProduct with stock := 2 })],
    orders := [(10,
      { user := 100, items := [⟨1, 3, 10⟩], total := 30,
        status := .pending, paymentStatus := .pending,
        shippingAddress := someAddress, paymentMethod := "card",
        trackingNumber := none, deliveredAt := none, cancelledAt := none })],
    reviews := [], nextProductId := 2, nextOrderId := 11, nextReviewId := 0 }

/-- Witness for C3 at the §8 scenario input. -/
theorem C3_total_snapshot_witness :
    lookupA dbWidget.orders dbWidget.nextOrderId = none ∧
    createOrder dbWidget 100 [⟨1, 3, 99⟩] someAddress "card" =
      .ok (dbAfterOrder, 10) ∧
    ∃ o, lookupA dbAfterOrder.orders 10 = some o ∧
      o.total = (o.items.map (fun it => it.price * (it.quantity : ℚ))).sum ∧
      List.Forall₂ (fun (ri : OrderItemReq) (it : OrderItem) =>
        it.product = ri.product ∧ it.quantity = ri.quantity ∧
        ∃ p, lookupA dbWidget.products ri.product = some p ∧ it.price = p.price)
        [⟨1, 3, 99⟩] o.items ∧
      (∀ pid price,
        lookupA (productSetPrice dbAfterOrder pid price).orders 10 = some o) :=
  ⟨by decide, by with_unfolding_all rfl,
    C3_total_snapshot dbWidget 100 [⟨1, 3, 99⟩] someAddress "card" dbAfterOrder 10
      (by decide) (by with_unfolding_all rfl)⟩

/-- An error of `validateItems` is always one of the two stock/catalog
errors. -/
theorem validateItems_error_kinds (db : DB) (req : List OrderItemReq)
    (e : SvcErr) (h : validateItems db req = .error e) :
    e = .productNotFound ∨ e = .insufficientStock := by
  induction req with
  | nil =>
    rw [validateItems] at h
    exact Except.noConfusion h
  | cons i rest ih =>
    rw [validateItems] at h
    cases hp : lookupA db.products i.product with
    | none =>
      rw [hp] at h
      simp only [] at h
      exact Or.inl (Except.error.inj h).symm
    | some p =>
      rw [hp] at h
      simp only [] at h
      by_cases hs : p.stock < (i.quantity : ℤ)
      · rw [if_pos hs] at h
        exact Or.inr (Except.error.inj h).symm
      · rw [if_neg hs] at h
        cases hrest : validateItems db rest with
        | error e' =>
          rw [hrest] at h
          simp only [] at h
          obtain rfl := Except.error.inj h
          exact ih hrest
        | ok rest' =>
          rw [hrest] at h
          simp only [] at h
          exact Except.noConfusion h

/-- `validateItems` fails exactly when some requested item is invalid, and
the error kind always points at an item failing that way. -/
theorem validateItems_error_iff (db : DB) (req : List OrderItemReq) :
    ((∃ e, validateItems db req = .error e) ↔
      ∃ i ∈ req, lookupA db.products i.product = none ∨
        ∃ p, lookupA db.products i.product = some p ∧ p.stock < (i.quantity : ℤ)) ∧
    (validateItems db req = .error .productNotFound →
      ∃ i ∈ req, lookupA db.products i.product = none) ∧
    (validateItems db req = .error .insufficientStock →
      ∃ i ∈ req, ∃ p, lookupA db.products i.product = some p ∧
        p.stock < (i.quantity : ℤ)) := by
  induction req with
  | nil =>
    refine ⟨⟨?_, ?_⟩, ?_, ?_⟩
    · rintro ⟨e, he⟩
      rw [validateItems] at he
      exact Except.noConfusion he
    · rintro ⟨i, hi, _⟩
      exact absurd hi (List.not_mem_nil i)
    · intro he
      rw [validateItems] at he
      exact Except.noConfusion he
    · intro he
      rw [validateItems] at he
      exact Except.noConfusion he
  | cons i rest ih =>
    have hstep : ∀ (P : Except SvcErr (List OrderItem) → Prop),
        P (validateItems db (i :: rest)) ↔
        P (match lookupA db.products i.product with
           | none => .error .productNotFound
           | some p =>
             if p.stock < (i.quantity : ℤ) then .error .insufficientStock
             else
               match validateItems db rest with
               | .error e => .error e
               | .ok rest' => .ok (⟨i.product, i.quantity, p.price⟩ :: rest')) := by
      intro P
      rw [validateItems]
    cases hp : lookupA db.products i.product with
    | none =>
      refine ⟨⟨?_, ?_⟩, ?_, ?_⟩
      · intro _
        exact ⟨i, List.mem_cons_self i rest, Or.inl hp⟩
      · intro _
        refine ⟨.productNotFound, ?_⟩
        rw [validateItems, hp]
      · intro _
        exact ⟨i, List.mem_cons_self i rest, hp⟩
      · intro he
        rw [validateItems, hp] at he
        simp only [] at he
        exact absurd (Except.error.inj he) (by intro hh; exact SvcErr.noConfusion hh)
    | some p =>
      by_cases hs : p.stock < (i.quantity : ℤ)
      · refine ⟨⟨?_, ?_⟩, ?_, ?_⟩
        · intro _
          exact ⟨i, List.mem_cons_self i rest, Or.inr ⟨p, hp, hs⟩⟩
        · intro _
          refine ⟨.insufficientStock, ?_⟩
          rw [validateItems, hp]
          simp only []
          rw [if_pos hs]
        · intro he
          rw [validateItems, hp] at he
          simp only [] at he
          rw [if_pos hs] at he
          exact absurd (Except.error.inj he) (by intro hh; exact SvcErr.noConfusion hh)
        · intro _
          exact ⟨i, List.mem_cons_self i rest, p, hp, hs⟩
      · have hred : validateItems db (i :: rest) =
            match validateItems db rest with
            | .error e => .error e
            | .ok rest' => .ok (⟨i.product, i.quantity, p.price⟩ :: rest') := by
          rw [validateItems, hp]
          simp only []
          rw [if_neg hs]
        refine ⟨⟨?_, ?_⟩, ?_, ?_⟩
        · rintro ⟨e, he⟩
          rw [hred] at he
          cases hrest : validateItems db rest with
          | error e' =>
            obtain ⟨j, hj, hbad⟩ := ih.1.1 ⟨e', hrest⟩
            exact ⟨j, List.mem_cons_of_mem i hj, hbad⟩
          | ok rest' =>
            rw [hrest] at he
            simp only [] at he
            exact Except.noConfusion he
        · rintro ⟨j, hj, hbad⟩
          rcases List.mem_cons.mp hj with rfl | hj'
          · rcases hbad with hnone | ⟨p', hp', _⟩
            · rw [hp] at hnone
              exact Option.noConfusion hnone
            · rw [hp] at hp'
              obtain rfl := Option.some.inj hp'
              exact absurd ‹p.stock < (j.quantity : ℤ)› hs
          · obtain ⟨e, he⟩ := ih.1.2 ⟨j, hj', hbad⟩
            refine ⟨e, ?_⟩
            rw [hred, he]
        · intro he
          rw [hred] at he
          cases hrest : validateItems db rest with
          | error e' =>
            rw [hrest] at he
            simp only [] at he
            obtain rfl := Except.error.inj he
            obtain ⟨j, hj, hbad⟩ := ih.2.1 hrest
            exact ⟨j, List.mem_cons_of_mem i hj, hbad⟩
          | ok rest' =>
            rw [hrest] at he
            simp only [] at he
            exact Except.noConfusion he
        · intro he
          rw [hred] at he
          cases hrest : validateItems db rest with
          | error e' =>
            rw [hrest] at he
            simp only [] at he
            obtain rfl := Except.error.inj he
            obtain ⟨j, hj, hbad⟩ := ih.2.2 hrest
            exact ⟨j, List.mem_cons_of_mem i hj, hbad⟩
          | ok rest' =>
            rw [hrest] at he
            simp only [] at he
            exact Except.noConfusion he

/-- `createOrder` errors exactly as its validation step does. -/
theorem createOrder_error_iff (db : DB) (userId : ℕ) (req : List OrderItemReq)
    (addr : Address) (method : String) (e : SvcErr) :
    createOrder db userId req addr method = .error e ↔
      validateItems db req = .error e := by
  rw [createOrder.eq_def]
  cases hv : validateItems db req with
  | error e' =>
    simp only []
    constructor
    · intro h
      obtain rfl := Except.error.inj h
      rfl
    · intro h
      obtain rfl := Except.error.inj h
      rfl
  | ok items =>
    simp only []
    constructor
    · intro h
      exact Except.noConfusion h
    · intro h
      exact Except.noConfusion h

/-- **C4**: `createOrder` fails exactly when some requested item references a
missing product or a product with stock below the requested quantity; a
not-found failure always has a missing product behind it and an
insufficient-stock failure an under-stocked one; every failure is one of
those two kinds; and on failure the committed state is the original one —
no order document and no stock change, in particular no partial decrement. -/
theorem C4_createOrder_failure_atomicity (db : DB) (userId : ℕ)
    (req : List OrderItemReq) (addr : Address) (method : String) :
    ((∃ e, createOrder db userId req addr method = .error e) ↔
      ∃ i ∈ req, lookupA db.products i.product = none ∨
        ∃ p, lookupA db.products i.product = some p ∧
          p.stock < (i.quantity : ℤ)) ∧
    (createOrder db userId req addr method = .error .productNotFound →
      ∃ i ∈ req, lookupA db.products i.product = none) ∧
    (createOrder db userId req addr method = .error .insufficientStock →
      ∃ i ∈ req, ∃ p, lookupA db.products i.product = some p ∧
        p.stock < (i.quantity : ℤ)) ∧
    (∀ e, createOrder db userId req addr method = .error e →
      (e = .productNotFound ∨ e = .insufficientStock) ∧
      createOrderRun db userId req addr method = (db, .error e)) := by
  obtain ⟨hiff, hnf, hins⟩ := validateItems_error_iff db req
  refine ⟨?_, ?_, ?_, ?_⟩
  · constructor
    · rintro ⟨e, he⟩
      exact hiff.mp ⟨e, (createOrder_error_iff db userId req addr method e).mp he⟩
    · intro hbad
      obtain ⟨e, he⟩ := hiff.mpr hbad
      exact ⟨e, (createOrder_error_iff db userId req addr method e).mpr he⟩
  · intro he
    exact hnf ((createOrder_error_iff db userId req addr method _).mp he)
  · intro he
    exact hins ((createOrder_error_iff db userId req addr method _).mp he)
  · intro e he
    refine ⟨validateItems_error_kinds db req e
      ((createOrder_error_iff db userId req addr method e).mp he), ?_⟩
    rw [createOrderRun, he]

/-- Witness for C4: one item asks for 6 units of product 1 (stock 5) — the
call fails with the insufficient-stock error and commits nothing. -/
theorem C4_createOrder_failure_atomicity_witness :
    (createOrder dbWidget 100 [⟨1, 6, 99⟩] someAddress "card" =
      .error .insufficientStock) ∧
    (∃ i ∈ [(⟨1, 6, 99⟩ : OrderItemReq)],
      ∃ p, lookupA dbWidget.products i.product = some p ∧
        p.stock < (i.quantity : ℤ)) ∧
    createOrderRun dbWidget 100 [⟨1, 6, 99⟩] someAddress "card" =
      (dbWidget, .error .insufficientStock) := by
  have h := C4_createOrder_failure_atomicity dbWidget 100 [⟨1, 6, 99⟩]
    someAddress "card"
  have he : createOrder dbWidget 100 [⟨1, 6, 99⟩] someAddress "card" =
      .error .insufficientStock := by decide
  exact ⟨he, h.2.2.1 he, (h.2.2.2 _ he).2⟩

/-- **C5**: `cancelOrder` succeeds exactly on an existing order in status
`pending` or `processing`; it then restores every line item's product stock
by its quantity, sets `status = cancelled` with `cancelledAt`, and keeps the
rest of the order intact; a missing order or a status among shipped /
delivered / cancelled fails (not-found resp. invalid-transition) with the
committed state exactly the original one. -/
theorem C5_cancelOrder_spec (db : DB) (oid : ℕ) (now : ℕ) :
    (lookupA db.orders oid = none →
      cancelOrderRun db oid now = (db, .error .orderNotFound)) ∧
    (∀ o, lookupA db.orders oid = some o →
      (o.status ≠ .pending ∧ o.status ≠ .processing →
        cancelOrderRun db oid now = (db, .error .invalidStateTransition)) ∧
      ((o.status = .pending ∨ o.status = .processing) →
        ∃ db' o', cancelOrderRun db oid now = (db', .ok o') ∧
          o' = { o with status := .cancelled, cancelledAt := some now } ∧
          lookupA db'.orders oid = some o' ∧
          (∀ pid, lookupA db'.products pid =
            (lookupA db.products pid).map
              (fun p => { p with stock := p.stock + qtySum o.items pid })))) := by
  constructor
  · intro h
    rw [cancelOrderRun.eq_def, cancelOrder.eq_def, h]
  · intro o ho
    constructor
    · intro hbad
      rw [cancelOrderRun.eq_def, cancelOrder.eq_def, ho]
      simp only []
      rw [if_pos hbad]
    · intro hgood
      have hcond : ¬ (o.status ≠ .pending ∧ o.status ≠ .processing) := by
        rcases hgood with h | h
        · intro hc
          exact hc.1 h
        · intro hc
          exact hc.2 h
      have hrun : cancelOrder db oid now =
          .ok ({ incStock db o.items with
                  orders := modifyA (incStock db o.items).orders oid
                    (fun _ => { o with status := .cancelled,
                                       cancelledAt := some now }) },
                { o with status := .cancelled, cancelledAt := some now }) := by
        rw [cancelOrder.eq_def, ho]
        simp only []
        rw [if_neg hcond]
      refine ⟨{ incStock db o.items with
                orders := modifyA (incStock db o.items).orders oid
                  (fun _ => { o with status := .cancelled,
                                     cancelledAt := some now }) },
              { o with status := .cancelled, cancelledAt := some now },
              ?_, rfl, ?_, ?_⟩
      · rw [cancelOrderRun.eq_def, hrun]
      · simp only []
        rw [lookupA_modifyA, if_pos rfl, incStock_orders, ho]
        rfl
      · intro pid
        simp only []
        exact lookupA_incStock db o.items pid

/-- Witness for C5: cancelling the processing order 10 restores product 1's
stock from 2 to 5 and marks the order cancelled. -/
theorem C5_cancelOrder_spec_witness :
    lookupA dbProcessing.orders 10 = some processingOrder ∧
    ∃ db' o', cancelOrderRun dbProcessing 10 7 = (db', .ok o') ∧
      o' = { processingOrder with status := .cancelled, cancelledAt := some 7 } ∧
      lookupA db'.orders 10 = some o' ∧
      (∀ pid, lookupA db'.products pid =
        (lookupA dbProcessing.products pid).map
          (fun p => { p with
            stock := p.stock + qtySum processingOrder.items pid })) := by
  have hlook : lookupA dbProcessing.orders 10 = some processingOrder := by
    with_unfolding_all rfl
  exact ⟨hlook,
    ((C5_cancelOrder_spec dbProcessing 10 7).2 processingOrder hlook).2
      (Or.inr (by with_unfolding_all rfl))⟩

/-! ## The rating/reviewCount invariant (claim C2) -/

/-- The claim's invariant: every stored product's `reviewCount` is the number
of reviews currently existing for it, and its `rating` is the arithmetic mean
of their ratings (0 when there are none). -/
def RatingInv (db : DB) : Prop :=
  ∀ pid p, lookupA db.products pid = some p →
    p.reviewCount = ratingCount db.reviews pid ∧
    p.rating = (if ratingCount db.reviews pid = 0 then 0
      else ratingSum db.reviews pid / (ratingCount db.reviews pid : ℚ))

/-- Store well-formedness maintained by the service: review ids are distinct
(`_id` uniqueness) and below the fresh-id counter. -/
def KeysOk (db : DB) : Prop :=
  (db.reviews.map Prod.fst).Nodup ∧ ∀ kv ∈ db.reviews, kv.1 < db.nextReviewId

/-- The committed state of a successful `createReview`, spelled out: the new
review is appended and the product gets `reviewCount + 1` and the
incrementally recomputed rating. -/
def createReviewState (db : DB) (d : ReviewCreateData) (product : Product) : DB :=
  { products := modifyA db.products d.product
      (fun p => { p with
        reviewCount := p.reviewCount + 1,
        rating := (product.rating * (product.reviewCount : ℚ) + d.rating) /
          ((product.reviewCount + 1 : ℕ) : ℚ) }),
    orders := db.orders,
    reviews := insertA db.reviews db.nextReviewId
      ⟨d.product, d.user, d.rating, d.comment⟩,
    nextProductId := db.nextProductId,
    nextOrderId := db.nextOrderId,
    nextReviewId := db.nextReviewId + 1 }

/-- Committed state of a successful `createReview`. -/
theorem createReview_ok_state (db : DB) (d : ReviewCreateData) (product : Product)
    (hp : lookupA db.products d.product = some product)
    (hdup : db.reviews.any
      (fun kv => kv.2.product = d.product ∧ kv.2.user = d.user) = false) :
    createReview db d = .ok (createReviewState db d product, db.nextReviewId) := by
  rw [createReview.eq_def, hp]
  simp only []
  rw [if_neg (by rw [hdup]; exact Bool.false_ne_true)]
  rfl

/-- `createReview` preserves the invariant and store well-formedness. -/
theorem createReview_preserves (db : DB) (d : ReviewCreateData)
    (hk : KeysOk db) (hi : RatingInv db) :
    KeysOk (applyReviewOp db (.create d)) ∧
    RatingInv (applyReviewOp db (.create d)) := by
  cases hp : lookupA db.products d.product with
  | none =>
    have happ : applyReviewOp db (.create d) = db := by
      show (match createReview db d with
            | .ok (db', _) => db'
            | .error _ => db) = db
      rw [createReview.eq_def, hp]
    rw [happ]
    exact ⟨hk, hi⟩
  | some product =>
    cases hdup : db.reviews.any
        (fun kv => kv.2.product = d.product ∧ kv.2.user = d.user) with
    | true =>
      have happ : applyReviewOp db (.create d) = db := by
        show (match createReview db d with
              | .ok (db', _) => db'
              | .error _ => db) = db
        rw [createReview.eq_def, hp]
        simp only []
        rw [if_pos hdup]
      rw [happ]
      exact ⟨hk, hi⟩
    | false =>
      have hok := createReview_ok_state db d product hp hdup
      have happ : applyReviewOp db (.create d) = createReviewState db d product := by
        show (match createReview db d with
              | .ok (db', _) => db'
              | .error _ => db) = _
        rw [hok]
      rw [happ]
      obtain ⟨hnd, hbound⟩ := hk
      constructor
      · constructor
        · show ((insertA db.reviews db.nextReviewId _).map Prod.fst).Nodup
          rw [insertA, List.map_append, List.nodup_append]
          refine ⟨hnd, List.nodup_singleton _, ?_⟩
          intro a ha hb
          simp only [List.map_cons, List.map_nil, List.mem_singleton] at hb
          subst hb
          obtain ⟨kv, hkv, hfst⟩ := List.mem_map.mp ha
          have := hbound kv hkv
          rw [hfst] at this
          exact absurd this (lt_irrefl _)
        · intro kv hkv
          rcases List.mem_append.mp hkv with h | h
          · exact Nat.lt_succ_of_lt (hbound kv h)
          · simp only [List.mem_singleton] at h
            rw [h]
            exact Nat.lt_succ_self _
      · intro pid p' hp'
        simp only [createReviewState] at hp' ⊢
        have hp'' : lookupA (modifyA db.products d.product
            (fun p => { p with
              reviewCount := p.reviewCount + 1,
              rating := (product.rating * (product.reviewCount : ℚ) + d.rating) /
                ((product.reviewCount + 1 : ℕ) : ℚ) })) pid = some p' := hp'
        rw [lookupA_modifyA] at hp''
        by_cases hpid : pid = d.product
        · subst hpid
          rw [if_pos rfl, hp] at hp''
          obtain rfl := Option.some.inj hp''
          obtain ⟨hc, hr⟩ := hi d.product product hp
          have hcnt : ratingCount (insertA db.reviews db.nextReviewId
              ⟨d.product, d.user, d.rating, d.comment⟩) d.product =
              ratingCount db.reviews d.product + 1 := by
            rw [insertA, ratingCount_append]
            rw [show ratingCount [(db.nextReviewId,
                (⟨d.product, d.user, d.rating, d.comment⟩ : Review))] d.product = 1 from by
              simp [ratingCount, reviewsFor]]
          have hsum : ratingSum (insertA db.reviews db.nextReviewId
              ⟨d.product, d.user, d.rating, d.comment⟩) d.product =
              ratingSum db.reviews d.product + d.rating := by
            rw [insertA, ratingSum_append]
            rw [show ratingSum [(db.nextReviewId,
                (⟨d.product, d.user, d.rating, d.comment⟩ : Review))] d.product = d.rating from by
              simp [ratingSum, reviewsFor]]
          refine ⟨?_, ?_⟩
          · show product.reviewCount + 1 = _
            rw [hcnt, hc]
          · show (product.rating * (product.reviewCount : ℚ) + d.rating) /
                ((product.reviewCount + 1 : ℕ) : ℚ) = _
            rw [hcnt, hsum, if_neg (Nat.succ_ne_zero _)]
            rcases Nat.eq_zero_or_pos (ratingCount db.reviews d.product) with hzero | hpos
            · rw [hzero, if_pos rfl] at hr
              rw [hzero] at hc
              rw [ratingSum_eq_zero_of_count_eq_zero _ _ hzero, hzero, hc, hr]
              norm_num
            · have hne : ((ratingCount db.reviews d.product : ℕ) : ℚ) ≠ 0 :=
                Nat.cast_ne_zero.mpr (Nat.pos_iff_ne_zero.mp hpos)
              rw [if_neg (Nat.pos_iff_ne_zero.mp hpos)] at hr
              rw [hc, hr]
              push_cast
              field_simp
        · rw [if_neg hpid] at hp''
          have hne2 : ¬ d.product = pid := fun h => hpid h.symm
          have hcnt : ratingCount (insertA db.reviews db.nextReviewId
              ⟨d.product, d.user, d.rating, d.comment⟩) pid =
              ratingCount db.reviews pid := by
            rw [insertA, ratingCount_append]
            rw [show ratingCount [(db.nextReviewId,
                (⟨d.product, d.user, d.rating, d.comment⟩ : Review))] pid = 0 from by
              simp [ratingCount, reviewsFor, hne2], Nat.add_zero]
          have hsum : ratingSum (insertA db.reviews db.nextReviewId
              ⟨d.product, d.user, d.rating, d.comment⟩) pid =
              ratingSum db.reviews pid := by
            rw [insertA, ratingSum_append]
            rw [show ratingSum [(db.nextReviewId,
                (⟨d.product, d.user, d.rating, d.comment⟩ : Review))] pid = 0 from by
              simp [ratingSum, reviewsFor, hne2], add_zero]
          rw [hcnt, hsum]
          exact hi pid p' hp''

/-- Helper facts about `modifyA` / `removeA` membership (first components are
never changed or introduced). -/
theorem fst_of_mem_modifyA {α : Type} (l : List (ℕ × α)) (k : ℕ) (f : α → α)
    (kv : ℕ × α) (h : kv ∈ modifyA l k f) : ∃ kv₀ ∈ l, kv.1 = kv₀.1 := by
  obtain ⟨kv₀, hkv₀, hg⟩ := List.mem_map.mp h
  refine ⟨kv₀, hkv₀, ?_⟩
  rw [← hg]
  by_cases hc : kv₀.1 = k <;> simp [hc]

theorem mem_of_mem_removeA {α : Type} (l : List (ℕ × α)) (k : ℕ)
    (kv : ℕ × α) (h : kv ∈ removeA l k) : kv ∈ l :=
  List.mem_of_mem_filter h

/-- `KeysOk` is stable under rewriting a review in place. -/
theorem keysOk_modify (db : DB) (rid : ℕ) (f : Review → Review)
    (hk : KeysOk db) :
    KeysOk { db with reviews := modifyA db.reviews rid f } := by
  obtain ⟨hnd, hbound⟩ := hk
  constructor
  · show ((modifyA db.reviews rid f).map Prod.fst).Nodup
    rw [keys_modifyA]
    exact hnd
  · intro kv hkv
    obtain ⟨kv₀, hkv₀, hfst⟩ := fst_of_mem_modifyA db.reviews rid f kv hkv
    rw [hfst]
    exact hbound kv₀ hkv₀

/-- `KeysOk` is stable under deleting a review. -/
theorem keysOk_remove (db : DB) (rid : ℕ) (hk : KeysOk db) :
    KeysOk { db with reviews := removeA db.reviews rid } := by
  obtain ⟨hnd, hbound⟩ := hk
  constructor
  · show ((removeA db.reviews rid).map Prod.fst).Nodup
    exact ((List.filter_sublist _).map Prod.fst).nodup hnd
  · intro kv hkv
    exact hbound kv (mem_of_mem_removeA db.reviews rid kv hkv)

/-- The committed state of a successful `updateReview` whose patch carries a
truthy rating different from the current one: the product's rating is
recomputed and the review rewritten. -/
def updateReviewStateProd (db : DB) (rid : ℕ) (review : Review)
    (product : Product) (rv : ℚ) (dc : Option String) : DB :=
  { products := modifyA db.products review.product
      (fun p => { p with
        rating := (product.rating * (orOne product.reviewCount : ℚ)
          - review.rating + rv) / (orOne product.reviewCount : ℚ) }),
    orders := db.orders,
    reviews := modifyA db.reviews rid
      (fun _ => { review with
        rating := rv, comment := applyComment dc review.comment }),
    nextProductId := db.nextProductId,
    nextOrderId := db.nextOrderId,
    nextReviewId := db.nextReviewId }

theorem updateReview_ok_change (db : DB) (rid : ℕ) (d : ReviewUpdateData)
    (review : Review) (product : Product) (rv : ℚ)
    (hr : lookupA db.reviews rid = some review)
    (hd : d.rating = some rv) (hch : rv ≠ 0 ∧ rv ≠ review.rating)
    (hp : lookupA db.products review.product = some product) :
    updateReview db rid d = .ok
      (updateReviewStateProd db rid review product rv d.comment,
        { review with rating := rv,
                      comment := applyComment d.comment review.comment }) := by
  rw [updateReview.eq_def, hr]
  simp only []
  rw [hd]
  simp only []
  rw [if_pos hch, hp]
  simp only []
  rfl

theorem updateReview_ok_nochange (db : DB) (rid : ℕ) (d : ReviewUpdateData)
    (review : Review)
    (hr : lookupA db.reviews rid = some review)
    (hcase : d.rating = none ∨
      ∃ rv, d.rating = some rv ∧ ¬ (rv ≠ 0 ∧ rv ≠ review.rating)) :
    ∃ review', review'.product = review.product ∧
      review'.rating = review.rating ∧
      updateReview db rid d = .ok
        ({ db with reviews := modifyA db.reviews rid (fun _ => review') },
          review') := by
  rcases hcase with hnone | ⟨rv, hsome, hnch⟩
  · refine ⟨{ review with comment := applyComment d.comment review.comment },
      rfl, rfl, ?_⟩
    rw [updateReview.eq_def, hr]
    simp only []
    rw [hnone]
  · refine ⟨{ review with
        rating := if rv ≠ 0 then rv else review.rating,
        comment := applyComment d.comment review.comment }, rfl, ?_, ?_⟩
    · show (if rv ≠ 0 then rv else review.rating) = review.rating
      by_cases hz : rv = 0
      · rw [if_neg (fun hh => hh hz)]
      · rw [if_pos hz]
        by_contra hne
        exact hnch ⟨hz, hne⟩
    · rw [updateReview.eq_def, hr]
      simp only []
      rw [hsome]
      simp only []
      rw [if_neg hnch]

/-- `updateReview` preserves the invariant and store well-formedness. -/
theorem updateReview_preserves (db : DB) (rid : ℕ) (d : ReviewUpdateData)
    (hk : KeysOk db) (hi : RatingInv db) :
    KeysOk (applyReviewOp db (.update rid d)) ∧
    RatingInv (applyReviewOp db (.update rid d)) := by
  cases hr : lookupA db.reviews rid with
  | none =>
    have happ : applyReviewOp db (.update rid d) = db := by
      show (match updateReview db rid d with
            | .ok (db', _) => db'
            | .error _ => db) = db
      rw [updateReview.eq_def, hr]
    rw [happ]
    exact ⟨hk, hi⟩
  | some review =>
    have hnochange : ∀ review', review'.product = review.product →
        review'.rating = review.rating →
        KeysOk { db with reviews := modifyA db.reviews rid (fun _ => review') } ∧
        RatingInv { db with reviews := modifyA db.reviews rid (fun _ => review') } := by
      intro review' hpp hrr
      refine ⟨keysOk_modify db rid _ hk, ?_⟩
      intro pid p hp
      have hp' : lookupA db.products pid = some p := hp
      obtain ⟨hc, hrat⟩ := hi pid p hp'
      have hcnt := ratingCount_modifyA db.reviews rid review review' hk.1 hr hpp pid
      have hsum := ratingSum_modifyA db.reviews rid review review' hk.1 hr pid
      have hsum' : ratingSum (modifyA db.reviews rid (fun _ => review')) pid =
          ratingSum db.reviews pid := by
        rw [hsum, hpp, hrr]
        ring
      show p.reviewCount = ratingCount (modifyA db.reviews rid (fun _ => review')) pid ∧
        p.rating = _
      rw [hcnt, hsum']
      exact ⟨hc, hrat⟩
    rcases hdr : d.rating with _ | rv
    · obtain ⟨review', hpp, hrr, hok⟩ :=
        updateReview_ok_nochange db rid d review hr (Or.inl hdr)
      have happ : applyReviewOp db (.update rid d) =
          { db with reviews := modifyA db.reviews rid (fun _ => review') } := by
        show (match updateReview db rid d with
              | .ok (db', _) => db'
              | .error _ => db) = _
        rw [hok]
      rw [happ]
      exact hnochange review' hpp hrr
    · by_cases hch : rv ≠ 0 ∧ rv ≠ review.rating
      · cases hp : lookupA db.products review.product with
        | none =>
          have happ : applyReviewOp db (.update rid d) = db := by
            show (match updateReview db rid d with
                  | .ok (db', _) => db'
                  | .error _ => db) = db
            rw [updateReview.eq_def, hr]
            simp only []
            rw [hdr]
            simp only []
            rw [if_pos hch, hp]
          rw [happ]
          exact ⟨hk, hi⟩
        | some product =>
          have hok := updateReview_ok_change db rid d review product rv hr hdr hch hp
          have happ : applyReviewOp db (.update rid d) =
              updateReviewStateProd db rid review product rv d.comment := by
            show (match updateReview db rid d with
                  | .ok (db', _) => db'
                  | .error _ => db) = _
            rw [hok]
          rw [happ]
          constructor
          · exact keysOk_modify
              { db with
                products := modifyA db.products review.product
                  (fun p => { p with
                    rating := (product.rating * (orOne product.reviewCount : ℚ)
                      - review.rating + rv) / (orOne product.reviewCount : ℚ) }) }
              rid _ hk
          · intro pid p' hp'
            simp only [updateReviewStateProd] at hp' ⊢
            have hcnt := ratingCount_modifyA db.reviews rid review
              { review with rating := rv,
                            comment := applyComment d.comment review.comment }
              hk.1 hr rfl pid
            have hsum := ratingSum_modifyA db.reviews rid review
              { review with rating := rv,
                            comment := applyComment d.comment review.comment }
              hk.1 hr pid
            rw [hcnt, hsum]
            rw [lookupA_modifyA] at hp'
            by_cases hpid : pid = review.product
            · subst hpid
              rw [if_pos rfl, hp] at hp'
              obtain rfl := Option.some.inj hp'
              obtain ⟨hc, hrat⟩ := hi review.product product hp
              have hposc : 1 ≤ ratingCount db.reviews review.product :=
                ratingCount_pos_of_lookup db.reviews rid review hr rfl
              have hcne : ratingCount db.reviews review.product ≠ 0 := by omega
              have hcount : product.reviewCount =
                  ratingCount db.reviews review.product := hc
              have horone : orOne product.reviewCount =
                  ratingCount db.reviews review.product := by
                rw [orOne, hcount, if_neg hcne]
              refine ⟨hc, ?_⟩
              show (product.rating * (orOne product.reviewCount : ℚ)
                  - review.rating + rv) / (orOne product.reviewCount : ℚ) = _
              rw [horone, if_pos rfl, if_pos rfl, if_neg hcne]
              rw [if_neg hcne] at hrat
              rw [hrat]
              have hne : ((ratingCount db.reviews review.product : ℕ) : ℚ) ≠ 0 :=
                Nat.cast_ne_zero.mpr hcne
              field_simp
            · rw [if_neg hpid] at hp'
              obtain ⟨hc, hrat⟩ := hi pid p' hp'
              have hne2 : ¬ review.product = pid := fun h => hpid h.symm
              rw [if_neg hne2, if_neg hne2]
              refine ⟨hc, ?_⟩
              rw [show ratingSum db.reviews pid - 0 + 0 = ratingSum db.reviews pid
                from by ring]
              exact hrat
      · obtain ⟨review', hpp, hrr, hok⟩ :=
          updateReview_ok_nochange db rid d review hr (Or.inr ⟨rv, hdr, hch⟩)
        have happ : applyReviewOp db (.update rid d) =
            { db with reviews := modifyA db.reviews rid (fun _ => review') } := by
          show (match updateReview db rid d with
                | .ok (db', _) => db'
                | .error _ => db) = _
          rw [hok]
        rw [happ]
        exact hnochange review' hpp hrr

/-- Committed state of a successful `deleteReview` when it removes the last
review (`currentCount === 1`): the product's aggregates are reset. -/
def deleteReviewStateLast (db : DB) (rid : ℕ) (review : Review) : DB :=
  { products := modifyA db.products review.product
      (fun p => { p with rating := 0, reviewCount := 0 }),
    orders := db.orders,
    reviews := removeA db.reviews rid,
    nextProductId := db.nextProductId,
    nextOrderId := db.nextOrderId,
    nextReviewId := db.nextReviewId }

/-- Committed state of a successful `deleteReview` with other reviews left:
the deleted rating's contribution is removed incrementally. -/
def deleteReviewStateMany (db : DB) (rid : ℕ) (review : Review)
    (product : Product) : DB :=
  { products := modifyA db.products review.product
      (fun p => { p with
        reviewCount := p.reviewCount - 1,
        rating := (product.rating * (orOne product.reviewCount : ℚ)
          - review.rating) / ((orOne product.reviewCount : ℚ) - 1) }),
    orders := db.orders,
    reviews := removeA db.reviews rid,
    nextProductId := db.nextProductId,
    nextOrderId := db.nextOrderId,
    nextReviewId := db.nextReviewId }

theorem deleteReview_ok_last (db : DB) (rid : ℕ) (review : Review)
    (product : Product)
    (hr : lookupA db.reviews rid = some review)
    (hp : lookupA db.products review.product = some product)
    (h1 : orOne product.reviewCount = 1) :
    deleteReview db rid = .ok (deleteReviewStateLast db rid review, review) := by
  rw [deleteReview.eq_def, hr]
  simp only []
  rw [hp]
  simp only []
  rw [if_pos h1]
  rfl

theorem deleteReview_ok_many (db : DB) (rid : ℕ) (review : Review)
    (product : Product)
    (hr : lookupA db.reviews rid = some review)
    (hp : lookupA db.products review.product = some product)
    (h1 : ¬ orOne product.reviewCount = 1) :
    deleteReview db rid =
      .ok (deleteReviewStateMany db rid review product, review) := by
  rw [deleteReview.eq_def, hr]
  simp only []
  rw [hp]
  simp only []
  rw [if_neg h1]
  rfl

/-- `deleteReview` preserves the invariant and store well-formedness. -/
theorem deleteReview_preserves (db : DB) (rid : ℕ)
    (hk : KeysOk db) (hi : RatingInv db) :
    KeysOk (applyReviewOp db (.delete rid)) ∧
    RatingInv (applyReviewOp db (.delete rid)) := by
  cases hr : lookupA db.reviews rid with
  | none =>
    have happ : applyReviewOp db (.delete rid) = db := by
      show (match deleteReview db rid with
            | .ok (db', _) => db'
            | .error _ => db) = db
      rw [deleteReview.eq_def, hr]
    rw [happ]
    exact ⟨hk, hi⟩
  | some review =>
    cases hp : lookupA db.products review.product with
    | none =>
      have happ : applyReviewOp db (.delete rid) = db := by
        show (match deleteReview db rid with
              | .ok (db', _) => db'
              | .error _ => db) = db
        rw [deleteReview.eq_def, hr]
        simp only []
        rw [hp]
      rw [happ]
      exact ⟨hk, hi⟩
    | some product =>
      obtain ⟨hc, hrat⟩ := hi review.product product hp
      have hposc : 1 ≤ ratingCount db.reviews review.product :=
        ratingCount_pos_of_lookup db.reviews rid review hr rfl
      have hcne : ratingCount db.reviews review.product ≠ 0 := by omega
      have horone : orOne product.reviewCount =
          ratingCount db.reviews review.product := by
        rw [orOne, hc, if_neg hcne]
      have hcntdel := fun pid => ratingCount_removeA db.reviews rid review hk.1 hr pid
      have hsumdel := fun pid => ratingSum_removeA db.reviews rid review hk.1 hr pid
      by_cases h1 : orOne product.reviewCount = 1
      · have hcount1 : ratingCount db.reviews review.product = 1 := by
          rw [← horone, h1]
        have hok := deleteReview_ok_last db rid review product hr hp h1
        have happ : applyReviewOp db (.delete rid) =
            deleteReviewStateLast db rid review := by
          show (match deleteReview db rid with
                | .ok (db', _) => db'
                | .error _ => db) = _
          rw [hok]
        rw [happ]
        constructor
        · exact keysOk_remove
            { db with
              products := modifyA db.products review.product
                (fun p => { p with rating := 0, reviewCount := 0 }) } rid hk
        · intro pid p' hp'
          simp only [deleteReviewStateLast] at hp' ⊢
          rw [lookupA_modifyA] at hp'
          rw [hcntdel pid, hsumdel pid]
          by_cases hpid : pid = review.product
          · subst hpid
            rw [if_pos rfl, hp] at hp'
            obtain rfl := Option.some.inj hp'
            rw [if_pos rfl, hcount1]
            exact ⟨rfl, by norm_num⟩
          · rw [if_neg hpid] at hp'
            have hne2 : ¬ review.product = pid := fun h => hpid h.symm
            rw [if_neg hne2, if_neg hne2]
            obtain ⟨hc', hrat'⟩ := hi pid p' hp'
            rw [Nat.sub_zero, sub_zero]
            exact ⟨hc', hrat'⟩
      · have hcount2 : 2 ≤ ratingCount db.reviews review.product := by
          have hne1 : ratingCount db.reviews review.product ≠ 1 := by
            intro h
            exact h1 (by rw [horone, h])
          omega
        have hok := deleteReview_ok_many db rid review product hr hp h1
        have happ : applyReviewOp db (.delete rid) =
            deleteReviewStateMany db rid review product := by
          show (match deleteReview db rid with
                | .ok (db', _) => db'
                | .error _ => db) = _
          rw [hok]
        rw [happ]
        constructor
        · exact keysOk_remove
            { db with
              products := modifyA db.products review.product
                (fun p => { p with
                  reviewCount := p.reviewCount - 1,
                  rating := (product.rating * (orOne product.reviewCount : ℚ)
                    - review.rating) / ((orOne product.reviewCount : ℚ) - 1) }) }
            rid hk
        · intro pid p' hp'
          simp only [deleteReviewStateMany] at hp' ⊢
          rw [lookupA_modifyA] at hp'
          rw [hcntdel pid, hsumdel pid]
          by_cases hpid : pid = review.product
          · subst hpid
            rw [if_pos rfl, hp] at hp'
            obtain rfl := Option.some.inj hp'
            rw [if_pos rfl, if_pos rfl]
            constructor
            · show product.reviewCount - 1 = ratingCount db.reviews review.product - 1
              rw [hc]
            · have hsub1 : ¬ ratingCount db.reviews review.product - 1 = 0 := by omega
              rw [if_neg hsub1]
              show (product.rating * (orOne product.reviewCount : ℚ)
                  - review.rating) / ((orOne product.reviewCount : ℚ) - 1) = _
              rw [horone]
              rw [if_neg hcne] at hrat
              rw [hrat]
              have hne : ((ratingCount db.reviews review.product : ℕ) : ℚ) ≠ 0 :=
                Nat.cast_ne_zero.mpr hcne
              have hcast : ((ratingCount db.reviews review.product - 1 : ℕ) : ℚ) =
                  (ratingCount db.reviews review.product : ℚ) - 1 := by
                push_cast [Nat.cast_sub hposc]
                ring
              rw [hcast]
              have hne1 : (ratingCount db.reviews review.product : ℚ) - 1 ≠ 0 := by
                have : (2 : ℚ) ≤ (ratingCount db.reviews review.product : ℚ) := by
                  exact_mod_cast hcount2
                intro hzero
                nlinarith
              field_simp
          · rw [if_neg hpid] at hp'
            have hne2 : ¬ review.product = pid := fun h => hpid h.symm
            rw [if_neg hne2, if_neg hne2]
            obtain ⟨hc', hrat'⟩ := hi pid p' hp'
            rw [Nat.sub_zero, sub_zero]
            exact ⟨hc', hrat'⟩

/-- Any single review operation (successful or failed) preserves the rating
invariant and store well-formedness. -/
theorem applyReviewOp_preserves (db : DB) (op : ReviewOp)
    (hk : KeysOk db) (hi : RatingInv db) :
    KeysOk (applyReviewOp db op) ∧ RatingInv (applyReviewOp db op) := by
  cases op with
  | create d => exact createReview_preserves db d hk hi
  | update rid d => exact updateReview_preserves db rid d hk hi
  | delete rid => exact deleteReview_preserves db rid hk hi

/-- **C2**: starting from any state whose products satisfy the invariant
(e.g. a fresh catalog: `rating = 0`, `reviewCount = 0`, no reviews) and whose
review ids are well-formed, after any sequence of `createReview` /
`updateReview` / `deleteReview` calls — hence after each operation of the
sequence, every prefix being itself a sequence — every stored product's
`rating` equals the arithmetic mean of the ratings of the reviews currently
existing for it (`0` when there are none; exact in ℚ, which subsumes the
claim's floating-point tolerance) and its `reviewCount` equals their
number. -/
theorem C2_rating_mean_invariant (db : DB) (ops : List ReviewOp)
    (hk : KeysOk db) (hi : RatingInv db) :
    RatingInv (runReviewOps db ops) ∧ KeysOk (runReviewOps db ops) := by
  induction ops generalizing db with
  | nil => exact ⟨hi, hk⟩
  | cons op rest ih =>
    obtain ⟨hk', hi'⟩ := applyReviewOp_preserves db op hk hi
    exact ih (applyReviewOp db op) hk' hi'

/-- Witness for C2: the §8 review scenario — two creations then a deletion
against a fresh product — run from a concretely valid starting state. -/
theorem C2_rating_mean_invariant_witness :
    (KeysOk dbWidget ∧ RatingInv dbWidget) ∧
    (RatingInv (runReviewOps dbWidget
        [.create ⟨1, 11, 4, "ok"⟩, .create ⟨1, 12, 2, "meh"⟩, .delete 0]) ∧
      KeysOk (runReviewOps dbWidget
        [.create ⟨1, 11, 4, "ok"⟩, .create ⟨1, 12, 2, "meh"⟩, .delete 0])) := by
  have hk : KeysOk dbWidget := by
    constructor
    · decide
    · intro kv hkv
      simp [dbWidget] at hkv
  have hi : RatingInv dbWidget := by
    intro pid p hp
    have hp' : lookupA [(1, widgetProduct)] pid = some p := hp
    by_cases hpid : (1 : ℕ) = pid
    · rw [lookupA_cons, if_pos hpid] at hp'
      obtain rfl := Option.some.inj hp'
      constructor
      · rfl
      · rw [show ratingCount dbWidget.reviews pid = 0 from rfl, if_pos rfl]
        rfl
    · rw [lookupA_cons, if_neg hpid] at hp'
      simp [lookupA] at hp'
  exact ⟨⟨hk, hi⟩,
    C2_rating_mean_invariant dbWidget
      [.create ⟨1, 11, 4, "ok"⟩, .create ⟨1, 12, 2, "meh"⟩, .delete 0] hk hi⟩

/-! ## One review per (product, user) pair (claim C7) -/

/-- At most one review per (product, user) pair: the pair projection of the
review store has no duplicates. -/
def PairUnique (db : DB) : Prop :=
  (db.reviews.map (fun kv => (kv.2.product, kv.2.user))).Nodup

/-- Rewriting a review in place without touching its (product, user) pair
leaves the pair projection unchanged (given distinct ids). -/
theorem pairs_modifyA (l : List (ℕ × Review)) (rid : ℕ) (r r' : Review)
    (hnd : (l.map Prod.fst).Nodup) (hl : lookupA l rid = some r)
    (hpp : r'.product = r.product) (hpu : r'.user = r.user) :
    (modifyA l rid (fun _ => r')).map (fun kv => (kv.2.product, kv.2.user)) =
      l.map (fun kv => (kv.2.product, kv.2.user)) := by
  obtain ⟨l₁, l₂, rfl, h₁, h₂⟩ := decomp_of_lookup_nodup l rid r hnd hl
  rw [modifyA_append, modifyA_of_not_mem l₁ rid _ h₁,
    show modifyA ((rid, r) :: l₂) rid (fun _ => r') =
      (rid, r') :: modifyA l₂ rid (fun _ => r') from
        modifyA_cons_pos r l₂ _ rfl,
    modifyA_of_not_mem l₂ rid _ h₂]
  simp [hpp, hpu]

/-- Every successful `updateReview` rewrites the looked-up review in place,
never changing its product or user. -/
theorem updateReview_reviews_shape (db : DB) (rid : ℕ) (d : ReviewUpdateData)
    (db' : DB) (r' : Review) (h : updateReview db rid d = .ok (db', r')) :
    ∃ review, lookupA db.reviews rid = some review ∧
      r'.product = review.product ∧ r'.user = review.user ∧
      db'.reviews = modifyA db.reviews rid (fun _ => r') := by
  cases hr : lookupA db.reviews rid with
  | none =>
    rw [updateReview.eq_def, hr] at h
    exact Except.noConfusion h
  | some review =>
    refine ⟨review, rfl, ?_⟩
    rw [updateReview.eq_def, hr] at h
    simp only [] at h
    cases hdr : d.rating with
    | none =>
      rw [hdr] at h
      simp only [] at h
      obtain ⟨h1, h2⟩ := Prod.mk.inj (Except.ok.inj h)
      rw [← h1, ← h2]
      exact ⟨rfl, rfl, rfl⟩
    | some rv =>
      rw [hdr] at h
      simp only [] at h
      by_cases hch : rv ≠ 0 ∧ rv ≠ review.rating
      · rw [if_pos hch] at h
        cases hp : lookupA db.products review.product with
        | none =>
          rw [hp] at h
          simp only [] at h
          exact Except.noConfusion h
        | some product =>
          rw [hp] at h
          simp only [] at h
          obtain ⟨h1, h2⟩ := Prod.mk.inj (Except.ok.inj h)
          rw [← h1, ← h2]
          exact ⟨rfl, rfl, rfl⟩
      · rw [if_neg hch] at h
        obtain ⟨h1, h2⟩ := Prod.mk.inj (Except.ok.inj h)
        rw [← h1, ← h2]
        exact ⟨rfl, rfl, rfl⟩

/-- Every successful `deleteReview` removes exactly the given id from the
review store. -/
theorem deleteReview_reviews_shape (db : DB) (rid : ℕ) (db' : DB) (r : Review)
    (h : deleteReview db rid = .ok (db', r)) :
    db'.reviews = removeA db.reviews rid := by
  cases hr : lookupA db.reviews rid with
  | none =>
    rw [deleteReview.eq_def, hr] at h
    exact Except.noConfusion h
  | some review =>
    rw [deleteReview.eq_def, hr] at h
    simp only [] at h
    cases hp : lookupA db.products review.product with
    | none =>
      rw [hp] at h
      simp only [] at h
      exact Except.noConfusion h
    | some product =>
      rw [hp] at h
      simp only [] at h
      by_cases h1 : orOne product.reviewCount = 1
      · rw [if_pos h1] at h
        obtain ⟨h2, _⟩ := Prod.mk.inj (Except.ok.inj h)
        rw [← h2]
      · rw [if_neg h1] at h
        obtain ⟨h2, _⟩ := Prod.mk.inj (Except.ok.inj h)
        rw [← h2]

/-- **C7 (amended)**: at most one review per (user, product) pair is
maintained by every review operation; `createReview` on a pair that already
has a review fails with the duplicate-key error raised by the store's unique
`{product, user}` index when the insertion is attempted, and the aborted
transaction leaves the committed state — in particular the product's rating
and reviewCount — exactly as it was. -/
theorem C7_amended_unique_pair (db : DB) (d : ReviewCreateData) :
    ((∃ kv ∈ db.reviews, kv.2.product = d.product ∧ kv.2.user = d.user) →
      (∃ p, lookupA db.products d.product = some p) →
      createReview db d = .error .duplicateKey ∧
      applyReviewOp db (.create d) = db) ∧
    (PairUnique db → KeysOk db → ∀ op, PairUnique (applyReviewOp db op)) := by
  constructor
  · rintro ⟨kv, hkv, hpair⟩ ⟨p, hp⟩
    have hdup : db.reviews.any
        (fun kv => kv.2.product = d.product ∧ kv.2.user = d.user) = true :=
      List.any_eq_true.mpr ⟨kv, hkv, by simp [hpair.1, hpair.2]⟩
    have herr : createReview db d = .error .duplicateKey := by
      rw [createReview.eq_def, hp]
      simp only []
      rw [if_pos hdup]
    refine ⟨herr, ?_⟩
    show (match createReview db d with
          | .ok (db', _) => db'
          | .error _ => db) = db
    rw [herr]
  · intro hpu hko op
    cases op with
    | create d' =>
      cases hp : lookupA db.products d'.product with
      | none =>
        have happ : applyReviewOp db (.create d') = db := by
          show (match createReview db d' with
                | .ok (db', _) => db'
                | .error _ => db) = db
          rw [createReview.eq_def, hp]
        rw [happ]
        exact hpu
      | some product =>
        cases hdup : db.reviews.any
            (fun kv => kv.2.product = d'.product ∧ kv.2.user = d'.user) with
        | true =>
          have happ : applyReviewOp db (.create d') = db := by
            show (match createReview db d' with
                  | .ok (db', _) => db'
                  | .error _ => db) = db
            rw [createReview.eq_def, hp]
            simp only []
            rw [if_pos hdup]
          rw [happ]
          exact hpu
        | false =>
          have hok := createReview_ok_state db d' product hp hdup
          have happ : applyReviewOp db (.create d') =
              createReviewState db d' product := by
            show (match createReview db d' with
                  | .ok (db', _) => db'
                  | .error _ => db) = _
            rw [hok]
          rw [happ]
          show ((insertA db.reviews db.nextReviewId
              ⟨d'.product, d'.user, d'.rating, d'.comment⟩).map
                (fun kv => (kv.2.product, kv.2.user))).Nodup
          rw [insertA, List.map_append, List.nodup_append]
          refine ⟨hpu, List.nodup_singleton _, ?_⟩
          intro a ha hb
          simp only [List.map_cons, List.map_nil, List.mem_singleton] at hb
          obtain ⟨kv₀, hkv₀, hpair⟩ := List.mem_map.mp ha
          have hnone := List.any_eq_false.mp hdup kv₀ hkv₀
          simp only [decide_eq_true_eq] at hnone
          apply hnone
          rw [hb] at hpair
          exact ⟨congrArg Prod.fst hpair, congrArg Prod.snd hpair⟩
    | update rid d' =>
      cases hu : updateReview db rid d' with
      | error e =>
        have happ : applyReviewOp db (.update rid d') = db := by
          show (match updateReview db rid d' with
                | .ok (db', _) => db'
                | .error _ => db) = db
          rw [hu]
        rw [happ]
        exact hpu
      | ok out =>
        obtain ⟨db', r'⟩ := out
        have happ : applyReviewOp db (.update rid d') = db' := by
          show (match updateReview db rid d' with
                | .ok (db', _) => db'
                | .error _ => db) = _
          rw [hu]
        rw [happ]
        obtain ⟨review, hr, hpp, hpuu, hshape⟩ :=
          updateReview_reviews_shape db rid d' db' r' hu
        show (db'.reviews.map (fun kv => (kv.2.product, kv.2.user))).Nodup
        rw [hshape, pairs_modifyA db.reviews rid review r' hko.1 hr hpp hpuu]
        exact hpu
    | delete rid =>
      cases hdel : deleteReview db rid with
      | error e =>
        have happ : applyReviewOp db (.delete rid) = db := by
          show (match deleteReview db rid with
                | .ok (db', _) => db'
                | .error _ => db) = db
          rw [hdel]
        rw [happ]
        exact hpu
      | ok out =>
        obtain ⟨db', r⟩ := out
        have happ : applyReviewOp db (.delete rid) = db' := by
          show (match deleteReview db rid with
                | .ok (db', _) => db'
                | .error _ => db) = _
          rw [hdel]
        rw [happ]
        have hshape := deleteReview_reviews_shape db rid db' r hdel
        show (db'.reviews.map (fun kv => (kv.2.product, kv.2.user))).Nodup
        rw [hshape]
        exact ((List.filter_sublist _).map _).nodup hpu

/-- Witness for the amended C7 at a concrete duplicate: user 2 already
reviewed product 1. -/
theorem C7_amended_unique_pair_witness :
    createReview dbReviewed ⟨1, 2, 5, "again"⟩ = .error .duplicateKey ∧
    applyReviewOp dbReviewed (.create ⟨1, 2, 5, "again"⟩) = dbReviewed :=
  (C7_amended_unique_pair dbReviewed ⟨1, 2, 5, "again"⟩).1
    ⟨(0, ⟨1, 2, 4, "ok"⟩), by decide, by decide⟩
    ⟨{ widgetProduct with rating := 4, reviewCount := 1 }, by decide⟩

end ECommerce
